import Mathlib

/-!
Formal model of the lifecycle-orchestration core of this repository.

The Python source being modelled:
- scripts/shutdown.py : DeadlockDetector, ResourceStateMachine, TaskGraph,
  EnhancedResourceLock, GracefulShutdown
- src/core/circuit_breaker.py : CircuitBreaker
- main.py : Application (dependency resolution)

Conventions of the embedding:
- Python `float` times and timeouts are modelled as rationals.
- Python dictionaries are modelled as association lists (`List (key × value)`,
  looked up with `List.lookup`); Python sets are modelled by lists that record
  one (unspecified) iteration order, since Python set iteration order is not
  specified.
- Exceptions are modelled by `Except` with a value type `PyExc` whose
  `className` function records the name of the Python exception class raised
  at the corresponding source location.
- The recursive depth-first traversals of the source are embedded with an
  explicit fuel parameter; lemmas below show the chosen fuel is never
  exhausted, so the fuel is invisible in the final statements.
-/

/-- Python exception values raised by the modelled code.  Each constructor
corresponds to one `raise` site in the source; `PyExc.className` gives the
Python class name of the exception raised there. -/
inductive PyExc where
  | valueErrorCircular (path : List String) (task : String)
  | valueErrorCircularNoNode
  | valueErrorInvalidTransition (resource : String) (fromState toState : String)
  | circuitBreakerOpen (name : String)
  | deadlockDetected (taskName resource : String)
  | resourceAcquisition (resource : String)
  | attributeErrorUndefined (method : String)
  | wrapped
deriving DecidableEq

/-- Python class name of each modelled exception value.  `valueErrorCircular`
is the `ValueError` raised by `TaskGraph.get_cleanup_order` (its message
lists the DFS path and the revisited task); `valueErrorCircularNoNode` is the
`ValueError` raised by `Application._resolve_dependencies` (its message names
no node); `valueErrorInvalidTransition` is the `ValueError` raised by
`ResourceStateMachine.transition`. -/
def PyExc.className : PyExc → String
  | .valueErrorCircular _ _ => "ValueError"
  | .valueErrorCircularNoNode => "ValueError"
  | .valueErrorInvalidTransition _ _ _ => "ValueError"
  | .circuitBreakerOpen _ => "CircuitBreakerOpenError"
  | .deadlockDetected _ _ => "DeadlockError"
  | .resourceAcquisition _ => "ResourceAcquisitionError"
  | .attributeErrorUndefined _ => "AttributeError"
  | .wrapped => "Exception"

/-- Node names (from the error message of `get_cleanup_order`) carried by a
modelled exception: the `ValueError` of `get_cleanup_order` interpolates
`list(path) + [task]` into its message, the other exceptions name no node. -/
def PyExc.namedNodes : PyExc → List String
  | .valueErrorCircular path task => path ++ [task]
  | _ => []

/-- Lexicographic comparison of code-point lists, modelling Python string
comparison (strings compare by code points, shorter prefix first). -/
def charListLtB : List Char → List Char → Bool
  | [], [] => false
  | [], _ :: _ => true
  | _ :: _, [] => false
  | c :: cs, d :: ds =>
    if Nat.blt c.toNat d.toNat then true
    else if Nat.blt d.toNat c.toNat then false
    else charListLtB cs ds

/-- Python string comparison `a < b` (code-point lexicographic). -/
def strLtB (a b : String) : Bool := charListLtB a.data b.data

/-- Insertion step of the lexicographic string sort used to model Python
`sorted` on a set of strings. -/
def insertStr (x : String) : List String → List String
  | [] => [x]
  | y :: ys => if strLtB x y then x :: y :: ys else y :: insertStr x ys

/-- Model of Python `sorted` on a collection of strings (lexicographic). -/
def sortStrings : List String → List String
  | [] => []
  | x :: xs => insertStr x (sortStrings xs)

/-- Insertion step of the stable descending-weight sort used to model
Python `sorted(deps, key=weight, reverse=True)` (Python sort is stable;
`reverse=True` keeps equal-weight elements in their original order). -/
def insertWt (w : String → Int) (x : String) : List String → List String
  | [] => [x]
  | y :: ys => if w y ≤ w x then x :: y :: ys else y :: insertWt w x ys

/-- Model of `sorted(·, key=w, reverse=True)`: stable, descending weight. -/
def sortDescBy (w : String → Int) : List String → List String
  | [] => []
  | x :: xs => insertWt w x (sortDescBy w xs)

/-- A list of nodes is a `GoodOrder` for a dependency function when it has no
duplicates and every dependency of a listed node occurs in the list strictly
before that node.  This is the correctness property of a topological order of
the dependency graph (dependencies first). -/
def GoodOrder (deps : String → List String) (order : List String) : Prop :=
  order.Nodup ∧
    ∀ t ∈ order, ∀ d ∈ deps t, d ∈ order ∧ order.indexOf d < order.indexOf t

/-- Edge of the dependency graph: `Edge deps a b` when `b` is listed among the
dependencies of `a`. -/
def Edge (deps : String → List String) (a b : String) : Prop := b ∈ deps a

instance (deps : String → List String) : DecidableRel (Edge deps) :=
  fun a b => inferInstanceAs (Decidable (b ∈ deps a))

/-- A nonempty list of nodes is a cycle when consecutive nodes are joined by
dependency edges and the last node has an edge back to the first. -/
def IsCycle (deps : String → List String) : List String → Prop
  | [] => False
  | a :: rest =>
      List.Chain (Edge deps) a rest ∧
        Edge deps ((a :: rest).getLast (List.cons_ne_nil a rest)) a

instance chainDecidable {R : String → String → Prop} [DecidableRel R] :
    ∀ (a : String) (l : List String), Decidable (List.Chain R a l)
  | _, [] => isTrue List.Chain.nil
  | a, b :: l =>
    haveI hb : Decidable (List.Chain R b l) := chainDecidable b l
    decidable_of_iff (R a b ∧ List.Chain R b l) List.chain_cons.symm

instance (deps : String → List String) : ∀ l, Decidable (IsCycle deps l)
  | [] => isFalse fun h => h
  | _ :: _ => inferInstanceAs (Decidable (_ ∧ _))

instance {ε α : Type} [DecidableEq ε] [DecidableEq α] :
    DecidableEq (Except ε α) := fun x y =>
  match x, y with
  | .ok a, .ok b =>
    if h : a = b then isTrue (by rw [h])
    else isFalse (by intro hc; cases hc; exact h rfl)
  | .error a, .error b =>
    if h : a = b then isTrue (by rw [h])
    else isFalse (by intro hc; cases hc; exact h rfl)
  | .ok _, .error _ => isFalse (by intro hc; cases hc)
  | .error _, .ok _ => isFalse (by intro hc; cases hc)

/-- A dependency graph is acyclic when no list of nodes forms a cycle. -/
def Acyclic (deps : String → List String) : Prop := ∀ l, ¬ IsCycle deps l

/-- Result of the recursive `visit` helper: a cycle error carries the DFS
path and the revisited task exactly as interpolated into the `ValueError`
message of the source; `outOfFuel` is an artifact of the fuel-indexed
embedding and is shown below never to occur at the fuel used. -/
inductive DfsErr where
  | cycle (path : List String) (task : String)
  | outOfFuel
deriving DecidableEq

/-- Sequential visit of a dependency list (the `for dep in deps` loop of
the source `visit` helpers): apply the given single-node visit to each
dependency in turn, threading the accumulated order and propagating the
first exception. -/
def visitListD (visit1 : String → List String → Except DfsErr (List String)) :
    List String → List String → Except DfsErr (List String)
  | [], order => .ok order
  | d :: rest, order =>
    match visit1 d order with
    | .error e => .error e
    | .ok o => visitListD visit1 rest o

/-- Embedding of the recursive `visit` helper shared by
`TaskGraph.get_cleanup_order` (scripts/shutdown.py lines 379-397, with
`deps` instantiated to the weight-sorted dependency enumeration) and
`Application._resolve_dependencies` (main.py lines 143-153, with `deps` the
raw dependency enumeration): raise on a node already on the current path,
return on an already-visited node, otherwise visit all dependencies and then
append the node to the order.  In the source `visited` and `order` always
hold the same elements (both are extended together when a node finishes), so
the embedding keeps only the `order` list; `path` is threaded functionally
(the source restores it by `path.remove`/`path.pop` before every `False`
return). -/
def visitD (deps : String → List String) :
    Nat → String → List String → List String → Except DfsErr (List String)
  | 0, _, _, _ => .error .outOfFuel
  | fuel + 1, task, path, order =>
    if task ∈ path then .error (.cycle path task)
    else if task ∈ order then .ok order
    else
      match visitListD (fun d o => visitD deps fuel d (path ++ [task]) o)
          (deps task) order with
      | .error e => .error e
      | .ok o => .ok (o ++ [task])

/-- Embedding of the root loop of the source topological sorts
(`for task in sorted(tasks): if task not in visited: visit(task, set())`):
each unvisited root is visited with an empty path. -/
def visitRootsD (deps : String → List String) (fuel : Nat)
    (roots order : List String) : Except DfsErr (List String) :=
  match roots with
  | [] => .ok order
  | r :: rs =>
    if r ∈ order then visitRootsD deps fuel rs order
    else
      match visitD deps fuel r [] order with
      | .error e => .error e
      | .ok o => visitRootsD deps fuel rs o

/-- State of `TaskGraph` (scripts/shutdown.py lines 361-372).
`dependencies` models the dict `_dependencies` (task → set of dependencies);
each value list records one iteration order of the corresponding Python set,
which is unspecified.  `reverse_deps_keys` models the key set of
`_reverse_deps` (only its keys are read, in `get_cleanup_order`).  `weights`
models `_weights`, keyed by the `(task, depends_on)` pair, defaulting to 1. -/
structure TaskGraph where
  dependencies : List (String × List String)
  reverse_deps_keys : List String
  weights : List ((String × String) × Int)
deriving DecidableEq

/-- Dependency set of a task: `self._dependencies[task]` (a `defaultdict`,
so a missing key reads as the empty set). -/
def TaskGraph.depsOf (g : TaskGraph) (t : String) : List String :=
  (g.dependencies.lookup t).getD []

/-- Weight of a dependency edge: `self._weights.get((task, d), 1)`. -/
def TaskGraph.weightOf (g : TaskGraph) (t d : String) : Int :=
  (g.weights.lookup (t, d)).getD 1

/-- Root enumeration of `get_cleanup_order`:
`sorted(set(self._dependencies.keys()) | set(self._reverse_deps.keys()))`. -/
def TaskGraph.tasks (g : TaskGraph) : List String :=
  sortStrings ((g.dependencies.map Prod.fst ++ g.reverse_deps_keys).dedup)

/-- Dependency enumeration used inside `visit`:
`sorted(self._dependencies[task], key=lambda d: weights.get((task, d), 1),
reverse=True)`. -/
def TaskGraph.sortedDeps (g : TaskGraph) (t : String) : List String :=
  sortDescBy (g.weightOf t) (g.depsOf t)

/-- All nodes the DFS of `get_cleanup_order` can ever push on its path:
every task and every member of a stored dependency set.  Used only to size
the fuel of the embedding. -/
def TaskGraph.nodeUniverse (g : TaskGraph) : List String :=
  g.tasks ++ (g.dependencies.map Prod.snd).join

/-- Embedding of `TaskGraph.get_cleanup_order` (scripts/shutdown.py lines
374-404): depth-first visit of every task in lexicographic root order,
dependencies of a node enumerated by descending weight (Python sort is
stable, so equal-weight dependencies keep the set-iteration order), a node
appended to the order after its dependencies, and a `ValueError` carrying
`list(path) + [task]` raised when a node on the current path is revisited. -/
def TaskGraph.get_cleanup_order (g : TaskGraph) : Except DfsErr (List String) :=
  visitRootsD g.sortedDeps (g.nodeUniverse.length + 1) g.tasks []

/-- State of `Application` relevant to dependency resolution (main.py lines
53-63 and 137-158): `services` records the key iteration order of
`self._services`, `dependency_graph` models the defaultdict
`self._dependency_graph` (service → set of dependency names, each value list
recording one set-iteration order). -/
structure Application where
  services : List String
  dependency_graph : List (String × List String)
deriving DecidableEq

/-- Dependency set of a service: `self._dependency_graph[service]`
(a `defaultdict`, so a missing key reads as the empty set). -/
def Application.depsOf (app : Application) (t : String) : List String :=
  (app.dependency_graph.lookup t).getD []

/-- All nodes the DFS of `_resolve_dependencies` can ever push on its path.
Used only to size the fuel of the embedding. -/
def Application.nodeUniverse (app : Application) : List String :=
  app.services ++ (app.dependency_graph.map Prod.snd).join

/-- Embedding of `Application._resolve_dependencies` (main.py lines
137-158): depth-first visit of every registered service in registration
order with no sorting anywhere; revisiting a node on the current path raises
`ValueError("Circular dependency detected")`, which names no node. -/
def Application.resolve_dependencies (app : Application) :
    Except DfsErr (List String) :=
  visitRootsD app.depsOf (app.nodeUniverse.length + 1) app.services []

/-- States of `DeadlockState` (scripts/shutdown.py lines 52-56). -/
inductive DeadlockState where
  | NONE
  | POTENTIAL
  | DETECTED
deriving DecidableEq

/-- The `ResourceLock` dataclass (scripts/shutdown.py lines 58-64).  Times
are rationals (seconds). -/
structure ResourceLock where
  resource : String
  acquired_by : Option String := none
  waiting_tasks : List String := []
  acquired_time : Option ℚ := none
deriving DecidableEq

/-- State of `DeadlockDetector` (scripts/shutdown.py lines 66-73):
`_resource_locks` (dict resource → `ResourceLock`), `_task_dependencies`
(defaultdict task → set of tasks, each value list recording one
set-iteration order), `_state`, `_last_check` (a timestamp in seconds) and
`_check_interval` (1.0 at construction). -/
structure DeadlockDetector where
  resource_locks : List (String × ResourceLock) := []
  task_dependencies : List (String × List String) := []
  state : DeadlockState := .NONE
  last_check : ℚ := 0
  check_interval : ℚ := 1
deriving DecidableEq

/-- Wait-for edges of a task: `self._task_dependencies[task]` (defaultdict,
so a missing key reads as the empty set). -/
def DeadlockDetector.depsOf (d : DeadlockDetector) (t : String) : List String :=
  (d.task_dependencies.lookup t).getD []

/-- Key iteration order of `_task_dependencies`, used by the outer loop of
`check_deadlocks`. -/
def DeadlockDetector.keys (d : DeadlockDetector) : List String :=
  d.task_dependencies.map Prod.fst

/-- All nodes the DFS of `check_deadlocks` can ever push on its path.  Used
only to size the fuel of the embedding. -/
def DeadlockDetector.nodeUniverse (d : DeadlockDetector) : List String :=
  d.keys ++ (d.task_dependencies.map Prod.snd).join

/-- Sequential scan of a dependency list for the `for dep in ...` loop of
`has_cycle`: stop with true at the first dependency whose visit finds a
cycle, otherwise thread the visited set. -/
def hcList (visit1 : String → List String → Option (Bool × List String)) :
    List String → List String → Option (Bool × List String)
  | [], visited => some (false, visited)
  | d :: rest, visited =>
    match visit1 d visited with
    | none => none
    | some (true, v) => some (true, v)
    | some (false, v) => hcList visit1 rest v

/-- Embedding of the recursive `has_cycle` helper of
`DeadlockDetector.check_deadlocks` (scripts/shutdown.py lines 88-103):
return true when the task is already on the current path (the source also
sets `_state = DETECTED` there, which `check_deadlocks` below reflects in
its result), return false when the task was already visited, otherwise mark
it visited, push it on the path and recurse into its dependencies.  The
`visited` set (a Python set extended at entry) is modelled by a list in
discovery order; `path` is passed functionally (the source pops it before
every false return, and on a true result only the boolean is used).  The
`Option` wrapper is the fuel artifact of the embedding. -/
def has_cycle (deps : String → List String) :
    Nat → String → List String → List String → Option (Bool × List String)
  | 0, _, _, _ => none
  | fuel + 1, task, path, visited =>
    if task ∈ path then some (true, visited)
    else if task ∈ visited then some (false, visited)
    else
      hcList (fun d v => has_cycle deps fuel d (path ++ [task]) v)
        (deps task) (visited ++ [task])

/-- The outer `for task in self._task_dependencies` loop of
`check_deadlocks`: return true as soon as some root finds a cycle. -/
def hcRoots (deps : String → List String) (fuel : Nat) :
    List String → List String → Option (Bool × List String)
  | [], visited => some (false, visited)
  | r :: rs, visited =>
    match has_cycle deps fuel r [] visited with
    | none => none
    | some (true, v) => some (true, v)
    | some (false, v) => hcRoots deps fuel rs v

/-- Embedding of `DeadlockDetector.check_deadlocks` (scripts/shutdown.py
lines 79-110), `now` being the value of `datetime.now()` at the call, in
seconds.  A call less than `_check_interval` after `_last_check` returns
false immediately, before reading the wait-for graph and without updating
any state.  Otherwise `_last_check` is set to `now`, the DFS runs over
every key of `_task_dependencies`, and `_state` becomes `DETECTED` exactly
when a cycle was found (`NONE` otherwise).  The function reads and writes
no lock: `_resource_locks` is untouched.  The `Option` wrapper is the fuel
artifact of the embedding; the fuel used is shown never to run out. -/
def DeadlockDetector.check_deadlocks (d : DeadlockDetector) (now : ℚ) :
    Option (Bool × DeadlockDetector) :=
  if now - d.last_check < d.check_interval then some (false, d)
  else
    match hcRoots d.depsOf (d.nodeUniverse.length + 1) d.keys [] with
    | none => none
    | some (found, _) =>
      some (found, { d with
        last_check := now
        state := if found then .DETECTED else .NONE })

/-- There is a topological order of exactly the visited-but-not-on-path
nodes.  This invariant makes a false answer of `has_cycle` sound: such an
order rules out any cycle among the fully explored nodes. -/
def VisGood (deps : String → List String) (visited path : List String) : Prop :=
  ∃ L, GoodOrder deps L ∧ ∀ x, x ∈ L ↔ (x ∈ visited ∧ x ∉ path)

/-- States of `CircuitState` (src/core/circuit_breaker.py lines 40-43). -/
inductive CircuitState where
  | CLOSED
  | OPEN
  | HALF_OPEN
deriving DecidableEq

/-- The `CircuitStats` dataclass (src/core/circuit_breaker.py lines 45-51);
the `last_failure`/`last_success` timestamps are omitted: they are recorded
but never read by the modelled logic. -/
structure CircuitStats where
  total_calls : Nat := 0
  failed_calls : Nat := 0
  consecutive_failures : Nat := 0
deriving DecidableEq

/-- The `CircuitConfig` dataclass (src/core/circuit_breaker.py lines
53-57). -/
structure CircuitConfig where
  failure_threshold : Nat := 5
  recovery_timeout : ℚ := 60
  half_open_max_calls : Nat := 3
deriving DecidableEq

/-- State of `CircuitBreaker` (src/core/circuit_breaker.py lines 80-114):
name, config, state, the `_half_open_calls` counter, the
`_state_change_time` timestamp (seconds) and the stats; metrics and the
adaptive-timeout machinery are observational and omitted. -/
structure CircuitBreaker where
  name : String := ""
  config : CircuitConfig := {}
  state : CircuitState := .CLOSED
  half_open_calls : Nat := 0
  state_change_time : ℚ := 0
  stats : CircuitStats := {}
deriving DecidableEq

/-- Modelled from the spec: the method `_should_transition_to_half_open`,
awaited by `_should_allow_request` (src/core/circuit_breaker.py line 144),
is defined nowhere in the repository.  Spec section 4.5 gives the intended
transition OPEN -(recoveryTimeout elapsed)- HALF_OPEN, so the missing
predicate is modelled as: the recovery timeout has elapsed since the last
state change.  (The dead method `_check_state_transition`, lines 171-179,
encodes the same intent but is never called and itself contains a
`seconds(...)` NameError.) -/
def CircuitBreaker.should_transition_to_half_open (cb : CircuitBreaker)
    (now : ℚ) : Prop :=
  cb.config.recovery_timeout ≤ now - cb.state_change_time

instance (cb : CircuitBreaker) (now : ℚ) :
    Decidable (cb.should_transition_to_half_open now) :=
  inferInstanceAs (Decidable (_ ≤ _))

/-- Embedding of `CircuitBreaker._should_allow_request` (lines 140-148):
CLOSED always allows; OPEN allows only when the (spec-modelled) recovery
check passes, in which case only `self.state` is set to HALF_OPEN; in
HALF_OPEN a request is allowed while `_half_open_calls` is below
`half_open_max_calls` (the source never increments `_half_open_calls`; the
field is nevertheless kept). -/
def CircuitBreaker.should_allow_request (cb : CircuitBreaker) (now : ℚ) :
    Bool × CircuitBreaker :=
  match cb.state with
  | .CLOSED => (true, cb)
  | .OPEN =>
    if cb.should_transition_to_half_open now
    then (true, { cb with state := .HALF_OPEN })
    else (false, cb)
  | .HALF_OPEN =>
    (decide (cb.half_open_calls < cb.config.half_open_max_calls), cb)

/-- Embedding of `CircuitBreaker._on_success` (lines 181-191): count the
call and reset the consecutive-failure counter; a HALF_OPEN success closes
the circuit, resetting `_half_open_calls` and `failed_calls` (the source
does not update `_state_change_time` here). -/
def CircuitBreaker.on_success (cb : CircuitBreaker) : CircuitBreaker :=
  let cb₁ := { cb with stats := { cb.stats with
    total_calls := cb.stats.total_calls + 1
    consecutive_failures := 0 } }
  match cb₁.state with
  | .HALF_OPEN =>
    { cb₁ with
      state := .CLOSED
      half_open_calls := 0
      stats := { cb₁.stats with failed_calls := 0 } }
  | _ => cb₁

/-- Embedding of `CircuitBreaker._on_failure` (lines 193-210): count the
failure; a CLOSED breaker whose consecutive-failure count reaches
`failure_threshold` trips to OPEN, and a HALF_OPEN breaker returns to
OPEN, both recording the state-change time. -/
def CircuitBreaker.on_failure (cb : CircuitBreaker) (now : ℚ) : CircuitBreaker :=
  let cb₁ := { cb with stats := { cb.stats with
    total_calls := cb.stats.total_calls + 1
    failed_calls := cb.stats.failed_calls + 1
    consecutive_failures := cb.stats.consecutive_failures + 1 } }
  if cb₁.state = .CLOSED ∧
      cb₁.config.failure_threshold ≤ cb₁.stats.consecutive_failures then
    { cb₁ with state := .OPEN, state_change_time := now }
  else if cb₁.state = .HALF_OPEN then
    { cb₁ with state := .OPEN, state_change_time := now }
  else cb₁

/-- Observable outcome of one `call`: the returned or raised value, whether
the wrapped function was invoked, and the breaker afterwards. -/
structure CallResult where
  result : Except PyExc Unit
  invoked : Bool
  breaker : CircuitBreaker
deriving DecidableEq

/-- Embedding of `CircuitBreaker.call` (src/core/circuit_breaker.py lines
116-138): when `_should_allow_request` refuses, raise
`CircuitBreakerOpenError` without invoking the wrapped function; otherwise
invoke it, update the breaker via `_on_success`/`_on_failure`, and return
its result (a failing wrapped call re-raises).  The wrapped function is
abstracted by whether it succeeds. -/
def CircuitBreaker.call (cb : CircuitBreaker) (now : ℚ) (fnSucceeds : Bool) :
    CallResult :=
  match cb.should_allow_request now with
  | (false, cb₁) => ⟨.error (.circuitBreakerOpen cb.name), false, cb₁⟩
  | (true, cb₁) =>
    if fnSucceeds then ⟨.ok (), true, cb₁.on_success⟩
    else ⟨.error .wrapped, true, cb₁.on_failure now⟩

/-- A sequence of calls whose wrapped function always fails, at the given
times. -/
def CircuitBreaker.applyFailures (cb : CircuitBreaker) :
    List ℚ → CircuitBreaker
  | [] => cb
  | t :: ts => ((cb.call t false).breaker).applyFailures ts

/-- The `ResourceState` enum (shutdown.py lines 193-199). -/
inductive ResourceState where
  | AVAILABLE
  | IN_USE
  | CLEANING
  | FAILED
  | CLEANED
deriving DecidableEq

/-- `.name` of a `ResourceState` member, as interpolated into the
`ValueError` message of `ResourceStateMachine.transition`. -/
def ResourceState.pyName : ResourceState → String
  | .AVAILABLE => "AVAILABLE"
  | .IN_USE => "IN_USE"
  | .CLEANING => "CLEANING"
  | .FAILED => "FAILED"
  | .CLEANED => "CLEANED"

/-- `ResourceStateMachine.VALID_TRANSITIONS` (shutdown.py lines 203-209):
the allowed target states for each current state, each Python set recorded
in one iteration order (membership, the only use, is order-independent). -/
def VALID_TRANSITIONS : ResourceState → List ResourceState
  | .AVAILABLE => [.IN_USE, .CLEANING]
  | .IN_USE => [.AVAILABLE, .CLEANING]
  | .CLEANING => [.CLEANED, .FAILED]
  | .FAILED => [.CLEANING]
  | .CLEANED => []

/-- State of `ResourceStateMachine` (lines 211-223): the `_states` dict as
an association list; the Prometheus metrics and `_last_transition_time`
bookkeeping are write-only and omitted. -/
structure ResourceStateMachine where
  states : List (String × ResourceState)
deriving DecidableEq

/-- `self._states.get(resource, ResourceState.AVAILABLE)` as evaluated at
lines 227 and 233. -/
def ResourceStateMachine.currentOf (m : ResourceStateMachine)
    (resource : String) : ResourceState :=
  (m.states.lookup resource).getD .AVAILABLE

/-- Embedding of `ResourceStateMachine.validate_transition` (lines
225-228): the requested state must be in the transition set of the current
state. -/
def ResourceStateMachine.validate_transition (m : ResourceStateMachine)
    (resource : String) (new_state : ResourceState) : Bool :=
  (VALID_TRANSITIONS (m.currentOf resource)).contains new_state

/-- Python dict assignment `d[k] = v` on an association list: replace the
binding of `k` in place, or append it. -/
def setKey : List (String × ResourceState) → String → ResourceState →
    List (String × ResourceState)
  | [], k, v => [(k, v)]
  | (k', v') :: rest, k, v =>
    if k' = k then (k, v) :: rest else (k', v') :: setKey rest k v

/-- Embedding of `ResourceStateMachine.transition` (lines 230-253): an
invalid pair raises `ValueError` (naming the resource and both state
names) before `_states` is touched; a valid one stores the new state
(metrics and duration bookkeeping omitted). -/
def ResourceStateMachine.transition (m : ResourceStateMachine)
    (resource : String) (new_state : ResourceState) :
    Except PyExc ResourceStateMachine :=
  if m.validate_transition resource new_state then
    .ok { m with states := setKey m.states resource new_state }
  else
    .error (.valueErrorInvalidTransition resource
      (m.currentOf resource).pyName new_state.pyName)

/-- Python truthiness of an `Optional[str]`: `None` and the empty string
are falsy (`if self.acquired_by:` at shutdown.py line 470). -/
def pyTruthyStr : Option String → Bool
  | none => false
  | some s => !(s == "")

/-- State of `EnhancedResourceLock` (shutdown.py lines 456-464, extending
the `ResourceLock` dataclass of lines 58-64). -/
structure EnhancedResourceLock where
  resource : String
  acquired_by : Option String := none
  waiting_tasks : List String := []
  acquired_time : Option ℚ := none
  lock_time : Option ℚ := none
  lock_count : Nat := 0
  max_wait_time : ℚ := 5
  last_holder : Option String := none
  contention_count : Nat := 0
deriving DecidableEq

/-- Embedding of `EnhancedResourceLock.acquire` (shutdown.py lines
466-478).  The `async with asyncio.timeout(self.max_wait_time)` block
contains no `await`, so the timeout can never fire (asyncio delivers a
timeout by cancelling the task at an await point, and the event loop never
runs inside the block) and the `except asyncio.TimeoutError: return False`
branch is dead: the body runs synchronously to completion.  If the lock is
already held the contention counter is bumped; the holder is then
overwritten unconditionally, the lock time set and the count bumped, and
the call returns `True`. -/
def EnhancedResourceLock.acquire (l : EnhancedResourceLock)
    (holder : String) (now : ℚ) : Bool × EnhancedResourceLock :=
  (true, { l with
    contention_count := if pyTruthyStr l.acquired_by
      then l.contention_count + 1 else l.contention_count
    acquired_by := some holder
    lock_time := some now
    lock_count := l.lock_count + 1 })

/-- The `ShutdownPhase` enum (shutdown.py lines 37-44); `for phase in
ShutdownPhase` iterates members in definition order. -/
inductive ShutdownPhase where
  | INITIALIZE
  | STOP_ACCEPTING
  | DRAIN_REQUESTS
  | CANCEL_TASKS
  | CLEANUP_RESOURCES
  | FINALIZE
deriving DecidableEq

/-- The members of `ShutdownPhase` in definition order. -/
def shutdownPhases : List ShutdownPhase :=
  [.INITIALIZE, .STOP_ACCEPTING, .DRAIN_REQUESTS, .CANCEL_TASKS,
   .CLEANUP_RESOURCES, .FINALIZE]

/-- The `TaskPriority` enum (shutdown.py lines 26-30); `for priority in
TaskPriority` iterates members in definition order. -/
inductive TaskPriority where
  | CRITICAL
  | HIGH
  | MEDIUM
  | LOW
deriving DecidableEq

/-- The members of `TaskPriority` in definition order. -/
def taskPriorities : List TaskPriority :=
  [.CRITICAL, .HIGH, .MEDIUM, .LOW]

/-- `self._task_timeouts` as built in `GracefulShutdown.__init__`
(shutdown.py lines 591-596). -/
def taskTimeout : TaskPriority → ℚ
  | .CRITICAL => 30
  | .HIGH => 20
  | .MEDIUM => 10
  | .LOW => 5

/-- `self._phase_timeouts` as built in `__init__` (lines 615-622) from the
`ShutdownConfig.phase_timeouts` defaults (lines 558-565). -/
def phaseTimeout : ShutdownPhase → ℚ
  | .INITIALIZE => 2
  | .STOP_ACCEPTING => 3
  | .DRAIN_REQUESTS => 10
  | .CANCEL_TASKS => 10
  | .CLEANUP_RESOURCES => 10
  | .FINALIZE => 5

/-- A `TrackedTask` (shutdown.py lines 32-35): its name and priority (the
wrapped `asyncio.Task` is abstracted away). -/
structure TrackedTask where
  name : String
  priority : TaskPriority
deriving DecidableEq

/-- Outcome of running one phase's handlers inside
`asyncio.timeout(timeout)` in `_run_phase` (lines 787-809): they all
finish before the deadline, the phase deadline fires
(`asyncio.TimeoutError`), or some handler raises another exception.  The
handlers themselves are arbitrary registered coroutines, so their outcome
is an oracle parameter. -/
inductive PhaseOutcome where
  | completed
  | timedOut
  | failed
deriving DecidableEq

/-- Outcome of one cancellation batch inside
`asyncio.timeout(self._task_timeouts[priority])` in
`_cancel_tasks_by_priority` (lines 887-896): the batch completes, or the
`except Exception` arm catches (in particular the per-batch timeout). -/
inductive BatchOutcome where
  | completed
  | error
deriving DecidableEq

/-- Observable events of a shutdown run, in program order. -/
inductive Event where
  | phaseStarted (p : ShutdownPhase)
  | phaseTimeoutMetric (p : ShutdownPhase)
  | batchAttempted (pr : TaskPriority) (names : List String) (timeout : ℚ)
  | batchErrorMetric (pr : TaskPriority)
  | cleanupHandlerInvoked (name : String)
  | shutdownErrorMetric
deriving DecidableEq

/-- Whether an event is the start of a phase (`logger.info` + handler run
at the top of `_run_phase`). -/
def isPhaseStarted : Event → Bool
  | .phaseStarted _ => true
  | _ => false

/-- Whether an event is a batch cancellation attempt. -/
def isBatchAttempt : Event → Bool
  | .batchAttempted _ _ _ => true
  | _ => false

/-- The `ShutdownContext` dataclass (shutdown.py lines 184-191): current
phase, accumulated handler errors (`context.errors`) and the set of
completed phases, kept as a list in insertion order (each phase is added
at most once).  `start_time`/`deadlines` are timestamps not modelled. -/
structure ShutdownContext where
  phase : ShutdownPhase
  completed_phases : List ShutdownPhase := []
  errors : List PyExc := []
deriving DecidableEq

/-- State of `GracefulShutdown` relevant to the modelled methods:
`_shutdown_in_progress` (line 590), `_batch_size` (line 606, default 10
from `ShutdownConfig.batch_size`), the `_tasks` set (one iteration order),
the names of registered `_cleanup_handlers`, and the `_task_graph` —
constructed empty at line 628 and never populated by any code path. -/
structure GracefulShutdown where
  shutdown_in_progress : Bool := false
  batch_size : Nat := 10
  tasks : List TrackedTask := []
  cleanup_handlers : List String := []
  task_graph : TaskGraph := ⟨[], [], []⟩
deriving DecidableEq

/-- Embedding of `GracefulShutdown._run_phase` (shutdown.py lines
787-809): run the phase's handlers under the phase timeout; on success the
phase is added to `context.completed_phases`; on `asyncio.TimeoutError`
only the `phase_timeout` error metric is incremented (the context is
untouched — the timeout is *not* appended to `context.errors` and the
phase is *not* marked completed); on any other exception the error is
appended to `context.errors`.  No branch re-raises. -/
def run_phase (po : ShutdownPhase → PhaseOutcome) (p : ShutdownPhase)
    (ctx : ShutdownContext) : ShutdownContext × List Event :=
  match po p with
  | .completed =>
    ({ ctx with completed_phases := ctx.completed_phases ++ [p] },
     [.phaseStarted p])
  | .timedOut => (ctx, [.phaseStarted p, .phaseTimeoutMetric p])
  | .failed =>
    ({ ctx with errors := ctx.errors ++ [.wrapped] }, [.phaseStarted p])

/-- Fuel-indexed batching: `chunksF fuel n xs` splits `xs` into
consecutive chunks of `n` (the first element plus `n - 1` more), as
`range(0, len(tasks), batch_size)` slicing does for `n ≥ 1`; `fuel ≥
xs.length` is always adequate. -/
def chunksF {α : Type} : Nat → Nat → List α → List (List α)
  | 0, _, _ => []
  | _ + 1, _, [] => []
  | fuel + 1, n, x :: xs => (x :: xs.take (n - 1)) :: chunksF fuel n (xs.drop (n - 1))

/-- The batches `tasks[i:i + self._batch_size]` of
`_cancel_tasks_by_priority` (lines 887-888). -/
def chunks {α : Type} (n : Nat) (xs : List α) : List (List α) :=
  chunksF xs.length n xs

/-- The tasks of one priority tier:
`[t for t in self._tasks if t.priority == priority]` (line 883). -/
def tierTasks (tasks : List TrackedTask) (pr : TaskPriority) :
    List TrackedTask :=
  tasks.filter (fun t => t.priority == pr)

/-- The batches of one priority tier (lines 887-888). -/
def tierBatches (batch_size : Nat) (tasks : List TrackedTask)
    (pr : TaskPriority) : List (List TrackedTask) :=
  chunks batch_size (tierTasks tasks pr)

/-- Events of one priority tier of `_cancel_tasks_by_priority` (lines
882-896): each batch is attempted under the tier's configured timeout;
when its `except Exception` arm catches (batch timeout included), only the
`batch_processing` error metric fires (`_handle_batch_error`, lines
930-941) and the loop continues with the next batch. -/
def tierEvents (bo : TaskPriority → Nat → BatchOutcome) (batch_size : Nat)
    (tasks : List TrackedTask) (pr : TaskPriority) : List Event :=
  (tierBatches batch_size tasks pr).enum.flatMap (fun ib =>
    .batchAttempted pr (ib.2.map TrackedTask.name) (taskTimeout pr) ::
      match bo pr ib.1 with
      | .completed => []
      | .error => [.batchErrorMetric pr])

/-- Embedding of `GracefulShutdown._cancel_tasks_by_priority` (shutdown.py
lines 879-901): the priority tiers in `TaskPriority` definition order,
each tier batch by batch. -/
def cancel_tasks_by_priority (bo : TaskPriority → Nat → BatchOutcome)
    (batch_size : Nat) (tasks : List TrackedTask) : List Event :=
  taskPriorities.flatMap (tierEvents bo batch_size tasks)

/-- Embedding of `GracefulShutdown._run_cleanup_handlers` (shutdown.py
lines 1012-1050): `ordered_resources = self._task_graph.get_cleanup_order()`
(a raised `ValueError` propagates); with an empty order,
`_group_resources_for_cleanup` returns no groups, the group loop does not
run and no cleanup handler is consulted; with a nonempty order, the first
iteration of `_group_resources_for_cleanup` (line 1059) calls
`self._can_cleanup_concurrently`, a method defined nowhere in the class,
raising `AttributeError` before any handler can be reached — the handler
lookup (line 1031) sits inside the group loop.  The `.outOfFuel` arm is
unreachable (`TaskGraph.no_fuel_error`). -/
def run_cleanup_handlers (g : TaskGraph) : Except PyExc (List Event) :=
  match g.get_cleanup_order with
  | .error (.cycle p t) => .error (.valueErrorCircular p t)
  | .error .outOfFuel => .error (.valueErrorCircular [] "")
  | .ok [] => .ok []
  | .ok (_ :: _) => .error (.attributeErrorUndefined "_can_cleanup_concurrently")

/-- Embedding of the phase loop of `GracefulShutdown.shutdown` (shutdown.py
lines 831-839): for each phase in order, set `context.phase`, run the
phase via `_run_phase` (which never raises), then after CANCEL_TASKS run
`_cancel_tasks_by_priority` (which never raises) and after
CLEANUP_RESOURCES run `_run_cleanup_handlers`; an exception from the
latter is caught by the `except Exception` arm (lines 841-846), which only
increments the `shutdown_error` metric and abandons the remaining phases
(third component `true`). -/
def phaseLoop (po : ShutdownPhase → PhaseOutcome)
    (bo : TaskPriority → Nat → BatchOutcome) (g : GracefulShutdown) :
    List ShutdownPhase → ShutdownContext →
      ShutdownContext × List Event × Bool
  | [], ctx => (ctx, [], false)
  | p :: rest, ctx =>
    let res := run_phase po p { ctx with phase := p }
    if p = .CANCEL_TASKS then
      let r := phaseLoop po bo g rest res.1
      (r.1,
       res.2 ++ cancel_tasks_by_priority bo g.batch_size g.tasks ++ r.2.1,
       r.2.2)
    else if p = .CLEANUP_RESOURCES then
      match run_cleanup_handlers g.task_graph with
      | .error _ => (res.1, res.2 ++ [.shutdownErrorMetric], true)
      | .ok evs₂ =>
        let r := phaseLoop po bo g rest res.1
        (r.1, res.2 ++ evs₂ ++ r.2.1, r.2.2)
    else
      let r := phaseLoop po bo g rest res.1
      (r.1, res.2 ++ r.2.1, r.2.2)

/-- Result of one `shutdown(signal_name)` call: the object state
afterwards, the shutdown context (`self._context`; `none` when the guard
returned without building one), the event trace, and whether
`_finalize_shutdown` ran (the `finally` arm, lines 847-848). -/
structure ShutdownResult where
  gs : GracefulShutdown
  context : Option ShutdownContext
  events : List Event
  finalized : Bool
deriving DecidableEq

/-- Embedding of `GracefulShutdown.shutdown` (shutdown.py lines 811-848):
if `_shutdown_in_progress` the call logs a warning and returns `None`
immediately — no context, no events, no finalization, no waiting; else
the flag is set (never reset anywhere), a fresh context starting at
INITIALIZE is built, the phase loop runs over all six phases, and
`_finalize_shutdown` always runs in the `finally` arm. -/
def GracefulShutdown.shutdown (g : GracefulShutdown)
    (po : ShutdownPhase → PhaseOutcome)
    (bo : TaskPriority → Nat → BatchOutcome) : ShutdownResult :=
  if g.shutdown_in_progress then ⟨g, none, [], false⟩
  else
    let r := phaseLoop po bo g shutdownPhases ⟨.INITIALIZE, [], []⟩
    ⟨{ g with shutdown_in_progress := true }, some r.1, r.2.1, true⟩

/-- The prefix of a phase list up to and including CLEANUP_RESOURCES: the
phases whose `_run_phase` is reached when `_run_cleanup_handlers` raises
(the `except Exception` arm abandons the rest of the loop). -/
def upToCleanup : List ShutdownPhase → List ShutdownPhase
  | [] => []
  | p :: rest =>
    if p = .CLEANUP_RESOURCES then [p] else p :: upToCleanup rest

theorem mem_insertStr {x a : String} {l : List String} :
    a ∈ insertStr x l ↔ a = x ∨ a ∈ l := by
  induction l with
  | nil => simp [insertStr]
  | cons y ys ih =>
    simp only [insertStr]
    split
    · simp
    · simp only [List.mem_cons, ih]
      tauto

theorem mem_sortStrings {a : String} {l : List String} :
    a ∈ sortStrings l ↔ a ∈ l := by
  induction l with
  | nil => simp [sortStrings]
  | cons x xs ih => simp [sortStrings, mem_insertStr, ih]

theorem mem_insertWt {w : String → Int} {x a : String} {l : List String} :
    a ∈ insertWt w x l ↔ a = x ∨ a ∈ l := by
  induction l with
  | nil => simp [insertWt]
  | cons y ys ih =>
    simp only [insertWt]
    split
    · simp
    · simp only [List.mem_cons, ih]
      tauto

theorem mem_sortDescBy {w : String → Int} {a : String} {l : List String} :
    a ∈ sortDescBy w l ↔ a ∈ l := by
  induction l with
  | nil => simp [sortDescBy]
  | cons x xs ih => simp [sortDescBy, mem_insertWt, ih]

theorem idxOf_append_of_mem {a : String} {l₁ : List String} (l₂ : List String)
    (h : a ∈ l₁) : (l₁ ++ l₂).indexOf a = l₁.indexOf a := by
  induction l₁ with
  | nil => cases h
  | cons b l ih =>
    by_cases hba : b = a
    · simp [hba, List.indexOf_cons_self]
    · have ha : a ∈ l := by
        rcases List.mem_cons.mp h with h' | h'
        · exact absurd h'.symm hba
        · exact h'
      have hne : ¬ (b == a) = true := by simp [hba]
      simp [List.indexOf_cons, hne, ih ha]

theorem idxOf_append_self {a : String} {l₁ : List String} (l₂ : List String)
    (h : a ∉ l₁) : (l₁ ++ a :: l₂).indexOf a = l₁.length := by
  induction l₁ with
  | nil => simp [List.indexOf_cons_self]
  | cons b l ih =>
    have hba : ¬ (b == a) = true := by
      simp only [beq_iff_eq]
      intro hb
      exact h (hb ▸ List.mem_cons_self b l)
    have ha : a ∉ l := fun hl => h (List.mem_cons_of_mem b hl)
    simp [List.indexOf_cons, hba, ih ha]

theorem goodOrder_nil (deps : String → List String) : GoodOrder deps [] := by
  constructor
  · exact List.nodup_nil
  · intro t ht
    cases ht

theorem goodOrder_append {deps : String → List String} {o : List String}
    {t : String} (hgood : GoodOrder deps o) (ht : t ∉ o)
    (hdeps : ∀ d ∈ deps t, d ∈ o) : GoodOrder deps (o ++ [t]) := by
  obtain ⟨hnd, hord⟩ := hgood
  constructor
  · refine List.Nodup.append hnd (List.nodup_singleton t) ?_
    intro x hx hx'
    rcases List.mem_singleton.mp hx' with rfl
    exact ht hx
  · intro x hx d hd
    rcases List.mem_append.mp hx with hxo | hxt
    · obtain ⟨hdo, hlt⟩ := hord x hxo d hd
      refine ⟨List.mem_append_left _ hdo, ?_⟩
      rw [idxOf_append_of_mem [t] hdo, idxOf_append_of_mem [t] hxo]
      exact hlt
    · have hxe : t = x := (List.mem_singleton.mp hxt).symm
      subst hxe
      have hdo := hdeps d hd
      refine ⟨List.mem_append_left _ hdo, ?_⟩
      rw [idxOf_append_of_mem [t] hdo, idxOf_append_self [] ht]
      exact List.indexOf_lt_length.mpr hdo

theorem chain_rank_le {deps : String → List String} {rank : String → Nat}
    (hr : ∀ a b, Edge deps a b → rank b < rank a) :
    ∀ (l : List String) (a : String), List.Chain (Edge deps) a l →
      rank ((a :: l).getLast (List.cons_ne_nil a l)) ≤ rank a := by
  intro l
  induction l with
  | nil =>
    intro a _
    simp
  | cons b rest ih =>
    intro a hchain
    rcases List.chain_cons.mp hchain with ⟨hab, hrest⟩
    have h1 : rank ((b :: rest).getLast (List.cons_ne_nil b rest)) ≤ rank b :=
      ih b hrest
    have h2 : rank b < rank a := hr a b hab
    rw [List.getLast_cons (List.cons_ne_nil b rest)]
    omega

/-- A dependency graph admitting a strictly edge-decreasing rank function is
acyclic. -/
theorem acyclic_of_rank {deps : String → List String} (rank : String → Nat)
    (hr : ∀ a b, Edge deps a b → rank b < rank a) : Acyclic deps := by
  intro l hcyc
  cases l with
  | nil => exact hcyc
  | cons a rest =>
    obtain ⟨hchain, hlast⟩ := hcyc
    have h1 := chain_rank_le hr rest a hchain
    have h2 := hr _ _ hlast
    omega

/-- A dependency graph whose every edge-source lies on some `GoodOrder` list
is acyclic: positions in the list give a strictly decreasing rank along
edges. -/
theorem acyclic_of_goodOrder {deps : String → List String}
    {order : List String} (hgood : GoodOrder deps order)
    (hcov : ∀ a b, Edge deps a b → a ∈ order) : Acyclic deps := by
  refine acyclic_of_rank (fun t => order.indexOf t) ?_
  intro a b he
  exact (hgood.2 a (hcov a b he) b he).2

theorem visitListD_ok_of {deps : String → List String} {path : List String}
    {visit1 : String → List String → Except DfsErr (List String)}
    (hD : ∀ d order order', visit1 d order = .ok order' →
      (∃ ext, order' = order ++ ext) ∧ d ∈ order' ∧
      (∀ x ∈ order', x ∈ order ∨ x ∉ path) ∧
      (GoodOrder deps order → GoodOrder deps order')) :
    ∀ ds order order', visitListD visit1 ds order = .ok order' →
      (∃ ext, order' = order ++ ext) ∧ (∀ d ∈ ds, d ∈ order') ∧
      (∀ x ∈ order', x ∈ order ∨ x ∉ path) ∧
      (GoodOrder deps order → GoodOrder deps order') := by
  intro ds
  induction ds with
  | nil =>
    intro order order' h
    simp only [visitListD, Except.ok.injEq] at h
    subst h
    exact ⟨⟨[], by simp⟩, by simp, fun x hx => Or.inl hx, fun hg => hg⟩
  | cons d rest ih =>
    intro order order' h
    simp only [visitListD] at h
    cases hv : visit1 d order with
    | error e => rw [hv] at h; cases h
    | ok o =>
      rw [hv] at h
      obtain ⟨⟨ext₁, hext₁⟩, hdmem, hxprop₁, hgood₁⟩ := hD d order o hv
      obtain ⟨⟨ext₂, hext₂⟩, hrest, hxprop₂, hgood₂⟩ := ih o order' h
      refine ⟨⟨ext₁ ++ ext₂, by rw [hext₂, hext₁, List.append_assoc]⟩, ?_, ?_,
        fun hg => hgood₂ (hgood₁ hg)⟩
      · intro d' hd'
        rcases List.mem_cons.mp hd' with rfl | hd'
        · rw [hext₂]
          exact List.mem_append_left _ hdmem
        · exact hrest d' hd'
      · intro x hx
        rcases hxprop₂ x hx with hxo | hxp
        · exact hxprop₁ x hxo
        · exact Or.inr hxp

theorem visitD_ok {deps : String → List String} :
    ∀ fuel task path order order', visitD deps fuel task path order = .ok order' →
      (∃ ext, order' = order ++ ext) ∧ task ∈ order' ∧
      (∀ x ∈ order', x ∈ order ∨ x ∉ path) ∧
      (GoodOrder deps order → GoodOrder deps order') := by
  intro fuel
  induction fuel with
  | zero =>
    intro task path order order' h
    simp [visitD] at h
  | succ f ih =>
    intro task path order order' h
    simp only [visitD] at h
    by_cases hp : task ∈ path
    · rw [if_pos hp] at h
      cases h
    · rw [if_neg hp] at h
      by_cases ho : task ∈ order
      · rw [if_pos ho] at h
        rw [Except.ok.injEq] at h
        subst h
        exact ⟨⟨[], by simp⟩, ho, fun x hx => Or.inl hx, fun hg => hg⟩
      · rw [if_neg ho] at h
        cases hl : visitListD (fun d o => visitD deps f d (path ++ [task]) o)
            (deps task) order with
        | error e => rw [hl] at h; cases h
        | ok o =>
          rw [hl] at h
          rw [Except.ok.injEq] at h
          subst h
          obtain ⟨⟨ext, hext⟩, hdall, hxprop, hgood⟩ :=
            visitListD_ok_of (fun d oo oo' hh => ih d (path ++ [task]) oo oo' hh)
              _ _ _ hl
          have htno : task ∉ o := by
            intro hto
            rcases hxprop task hto with h1 | h2
            · exact ho h1
            · exact h2 (List.mem_append_right path (List.mem_singleton_self task))
          refine ⟨⟨ext ++ [task], by rw [hext]; simp⟩, ?_, ?_, ?_⟩
          · exact List.mem_append_right o (List.mem_singleton_self task)
          · intro x hx
            rcases List.mem_append.mp hx with hxo | hxt
            · rcases hxprop x hxo with h1 | h2
              · exact Or.inl h1
              · exact Or.inr (fun hxp => h2 (List.mem_append_left _ hxp))
            · rcases List.mem_singleton.mp hxt with rfl
              exact Or.inr hp
          · intro hg
            exact goodOrder_append (hgood hg) htno (fun d hd => hdall d hd)

theorem chain_snoc {R : String → String → Prop} :
    ∀ (l : List String) (a b : String), List.Chain R a (l ++ [b]) →
      List.Chain R a l ∧ R ((a :: l).getLast (List.cons_ne_nil a l)) b := by
  intro l
  induction l with
  | nil =>
    intro a b h
    rcases List.chain_cons.mp h with ⟨hab, _⟩
    exact ⟨List.Chain.nil, hab⟩
  | cons c l' ih =>
    intro a b h
    rw [List.cons_append] at h
    rcases List.chain_cons.mp h with ⟨hac, hrest⟩
    obtain ⟨hc, hlast⟩ := ih c b hrest
    refine ⟨List.chain_cons.mpr ⟨hac, hc⟩, ?_⟩
    rw [List.getLast_cons (List.cons_ne_nil c l')]
    exact hlast

/-- When the DFS path followed by the current task is an edge-chain and the
task already occurs on the path, the suffix of the path starting at that
occurrence is a cycle of the dependency graph through the task.  This is the
situation in which the source raises its circular-dependency `ValueError`. -/
theorem cycle_of_path_mem {deps : String → List String} {path : List String}
    {task : String} (hchain : List.Chain' (Edge deps) (path ++ [task]))
    (hmem : task ∈ path) : ∃ cyc, IsCycle deps cyc ∧ task ∈ cyc := by
  obtain ⟨pre, suf, rfl⟩ := List.append_of_mem hmem
  refine ⟨task :: suf, ?_, List.mem_cons_self task suf⟩
  have hassoc : (pre ++ task :: suf) ++ [task] = pre ++ (task :: (suf ++ [task])) := by
    simp
  rw [hassoc] at hchain
  have h2 : List.Chain' (Edge deps) (task :: (suf ++ [task])) :=
    (List.chain'_append.mp hchain).2.1
  have h3 : List.Chain (Edge deps) task (suf ++ [task]) := h2
  obtain ⟨hc, hl⟩ := chain_snoc suf task task h3
  exact ⟨hc, hl⟩

theorem chain'_snoc_edge {R : String → String → Prop} {l : List String}
    {t d : String} (h : List.Chain' R (l ++ [t])) (he : R t d) :
    List.Chain' R ((l ++ [t]) ++ [d]) := by
  rw [List.chain'_append]
  refine ⟨h, List.chain'_singleton d, ?_⟩
  intro x hx y hy
  have hgl : (l ++ [t]).getLast? = some t := List.getLast?_concat l
  rw [hgl] at hx
  have hx' : t = x := Option.mem_some_iff.mp hx
  have hy' : d = y := Option.mem_some_iff.mp hy
  rw [← hx', ← hy']
  exact he

theorem visitListD_err_of {deps : String → List String} {path : List String}
    {visit1 : String → List String → Except DfsErr (List String)}
    (hD : ∀ d order p tk,
      visit1 d order = .error (.cycle p tk) →
      List.Chain' (Edge deps) (path ++ [d]) →
      ∃ cyc, IsCycle deps cyc ∧ tk ∈ cyc) :
    ∀ ds order p tk,
      visitListD visit1 ds order = .error (.cycle p tk) →
      (∀ d ∈ ds, List.Chain' (Edge deps) (path ++ [d])) →
      ∃ cyc, IsCycle deps cyc ∧ tk ∈ cyc := by
  intro ds
  induction ds with
  | nil =>
    intro order p tk h _
    simp [visitListD] at h
  | cons d rest ih =>
    intro order p tk h hch
    simp only [visitListD] at h
    cases hv : visit1 d order with
    | error e =>
      rw [hv] at h
      rw [Except.error.injEq] at h
      subst h
      exact hD d order p tk hv (hch d (List.mem_cons_self d rest))
    | ok o =>
      rw [hv] at h
      exact ih o p tk h (fun d' hd' => hch d' (List.mem_cons_of_mem d hd'))

theorem visitD_err {deps : String → List String} :
    ∀ fuel task path order p tk,
      visitD deps fuel task path order = .error (.cycle p tk) →
      List.Chain' (Edge deps) (path ++ [task]) →
      ∃ cyc, IsCycle deps cyc ∧ tk ∈ cyc := by
  intro fuel
  induction fuel with
  | zero =>
    intro task path order p tk h _
    simp [visitD] at h
  | succ f ih =>
    intro task path order p tk h hchain
    simp only [visitD] at h
    by_cases hp : task ∈ path
    · rw [if_pos hp] at h
      rw [Except.error.injEq] at h
      have htk : task = tk := by
        cases h
        rfl
      rw [← htk]
      exact cycle_of_path_mem hchain hp
    · rw [if_neg hp] at h
      by_cases ho : task ∈ order
      · rw [if_pos ho] at h
        cases h
      · rw [if_neg ho] at h
        cases hl : visitListD (fun d o => visitD deps f d (path ++ [task]) o)
            (deps task) order with
        | error e =>
          rw [hl] at h
          rw [Except.error.injEq] at h
          subst h
          refine visitListD_err_of
            (fun d oo pp tt hh hc => ih d (path ++ [task]) oo pp tt hh hc)
            _ _ _ _ hl ?_
          intro d hd
          exact chain'_snoc_edge hchain hd
        | ok o =>
          rw [hl] at h
          cases h

theorem visitRootsD_err {deps : String → List String} {fuel : Nat} :
    ∀ roots order p tk,
      visitRootsD deps fuel roots order = .error (.cycle p tk) →
      ∃ cyc, IsCycle deps cyc ∧ tk ∈ cyc := by
  intro roots
  induction roots with
  | nil =>
    intro order p tk h
    simp [visitRootsD] at h
  | cons r rs ih =>
    intro order p tk h
    simp only [visitRootsD] at h
    by_cases ho : r ∈ order
    · rw [if_pos ho] at h
      exact ih order p tk h
    · rw [if_neg ho] at h
      cases hv : visitD deps fuel r [] order with
      | error e =>
        rw [hv] at h
        rw [Except.error.injEq] at h
        subst h
        exact visitD_err fuel r [] order p tk hv (by simp)
      | ok o =>
        rw [hv] at h
        exact ih o p tk h

theorem visitRootsD_ok {deps : String → List String} {fuel : Nat} :
    ∀ roots order final,
      visitRootsD deps fuel roots order = .ok final →
      (∃ ext, final = order ++ ext) ∧ (∀ r ∈ roots, r ∈ final) ∧
      (GoodOrder deps order → GoodOrder deps final) := by
  intro roots
  induction roots with
  | nil =>
    intro order final h
    simp only [visitRootsD, Except.ok.injEq] at h
    subst h
    exact ⟨⟨[], by simp⟩, by simp, fun hg => hg⟩
  | cons r rs ih =>
    intro order final h
    simp only [visitRootsD] at h
    by_cases ho : r ∈ order
    · rw [if_pos ho] at h
      obtain ⟨⟨ext, hext⟩, hall, hgood⟩ := ih order final h
      refine ⟨⟨ext, hext⟩, ?_, hgood⟩
      intro r' hr'
      rcases List.mem_cons.mp hr' with rfl | hr'
      · rw [hext]
        exact List.mem_append_left _ ho
      · exact hall r' hr'
    · rw [if_neg ho] at h
      cases hv : visitD deps fuel r [] order with
      | error e =>
        rw [hv] at h
        cases h
      | ok o =>
        rw [hv] at h
        obtain ⟨⟨ext₁, hext₁⟩, hrmem, _, hgood₁⟩ := visitD_ok fuel r [] order o hv
        obtain ⟨⟨ext₂, hext₂⟩, hall, hgood₂⟩ := ih o final h
        refine ⟨⟨ext₁ ++ ext₂, by rw [hext₂, hext₁, List.append_assoc]⟩, ?_,
          fun hg => hgood₂ (hgood₁ hg)⟩
        intro r' hr'
        rcases List.mem_cons.mp hr' with rfl | hr'
        · rw [hext₂]
          exact List.mem_append_left _ hrmem
        · exact hall r' hr'

theorem length_le_of_nodup_subset {l u : List String} (hnd : l.Nodup)
    (hsub : l ⊆ u) : l.length ≤ u.length := by
  calc l.length = l.toFinset.card := (List.toFinset_card_of_nodup hnd).symm
    _ ≤ u.toFinset.card := Finset.card_le_card (fun x hx => by
        rw [List.mem_toFinset] at hx ⊢
        exact hsub hx)
    _ ≤ u.length := u.toFinset_card_le

theorem visitListD_no_fuel_of {U : List String}
    {visit1 : String → List String → Except DfsErr (List String)}
    (hD : ∀ d order, d ∈ U → visit1 d order ≠ .error .outOfFuel) :
    ∀ ds order, (∀ d ∈ ds, d ∈ U) →
      visitListD visit1 ds order ≠ .error .outOfFuel := by
  intro ds
  induction ds with
  | nil =>
    intro order _ h
    simp [visitListD] at h
  | cons d rest ih =>
    intro order hds h
    simp only [visitListD] at h
    cases hv : visit1 d order with
    | error e =>
      rw [hv] at h
      rw [Except.error.injEq] at h
      subst h
      exact absurd hv (hD d order (hds d (List.mem_cons_self d rest)))
    | ok o =>
      rw [hv] at h
      exact absurd h (ih o (fun d' hd' => hds d' (List.mem_cons_of_mem d hd')))

theorem visitD_no_fuel {deps : String → List String} {U : List String}
    (hU : ∀ t ∈ U, ∀ d ∈ deps t, d ∈ U) :
    ∀ fuel task path order, task ∈ U → path ⊆ U → path.Nodup →
      U.length < fuel + path.length →
      visitD deps fuel task path order ≠ .error .outOfFuel := by
  intro fuel
  induction fuel with
  | zero =>
    intro task path order htU hpsub hpnd hlen _
    have := length_le_of_nodup_subset hpnd hpsub
    omega
  | succ f ih =>
    intro task path order htU hpsub hpnd hlen h
    simp only [visitD] at h
    by_cases hp : task ∈ path
    · rw [if_pos hp] at h
      simp at h
    · rw [if_neg hp] at h
      by_cases ho : task ∈ order
      · rw [if_pos ho] at h
        simp at h
      · rw [if_neg ho] at h
        cases hl : visitListD (fun d o => visitD deps f d (path ++ [task]) o)
            (deps task) order with
        | error e =>
          rw [hl] at h
          rw [Except.error.injEq] at h
          subst h
          have hmem : ∀ d ∈ deps task, d ∈ U := hU task htU
          have hsub : path ++ [task] ⊆ U := by
            intro x hx
            rcases List.mem_append.mp hx with hx | hx
            · exact hpsub hx
            · rcases List.mem_singleton.mp hx with rfl
              exact htU
          have hnd : (path ++ [task]).Nodup := by
            refine List.Nodup.append hpnd (List.nodup_singleton task) ?_
            intro x hx hx'
            rcases List.mem_singleton.mp hx' with rfl
            exact hp hx
          have hlen' : U.length < f + (path ++ [task]).length := by
            rw [List.length_append, List.length_singleton]
            omega
          exact absurd hl (visitListD_no_fuel_of
            (fun d oo hdU => ih d (path ++ [task]) oo hdU hsub hnd hlen')
            (deps task) order hmem)
        | ok o =>
          rw [hl] at h
          simp at h

theorem visitRootsD_no_fuel {deps : String → List String} {U : List String}
    {fuel : Nat} (hU : ∀ t ∈ U, ∀ d ∈ deps t, d ∈ U)
    (hfuel : U.length < fuel) :
    ∀ roots order, (∀ r ∈ roots, r ∈ U) →
      visitRootsD deps fuel roots order ≠ .error .outOfFuel := by
  intro roots
  induction roots with
  | nil =>
    intro order _ h
    simp [visitRootsD] at h
  | cons r rs ih =>
    intro order hrs h
    simp only [visitRootsD] at h
    by_cases ho : r ∈ order
    · rw [if_pos ho] at h
      exact absurd h (ih order (fun r' hr' => hrs r' (List.mem_cons_of_mem r hr')))
    · rw [if_neg ho] at h
      cases hv : visitD deps fuel r [] order with
      | error e =>
        rw [hv] at h
        rw [Except.error.injEq] at h
        subst h
        have : visitD deps fuel r [] order ≠ .error .outOfFuel := by
          refine visitD_no_fuel hU fuel r [] order (hrs r (List.mem_cons_self r rs)) ?_ ?_ ?_
          · intro x hx
            cases hx
          · exact List.nodup_nil
          · simpa using hfuel
        exact absurd hv this
      | ok o =>
        rw [hv] at h
        exact absurd h (ih o (fun r' hr' => hrs r' (List.mem_cons_of_mem r hr')))

theorem lookup_some_value {α β : Type} [BEq α] :
    ∀ (l : List (α × β)) (k : α) (v : β), l.lookup k = some v →
      v ∈ l.map Prod.snd := by
  intro l
  induction l with
  | nil =>
    intro k v h
    simp [List.lookup] at h
  | cons p rest ih =>
    intro k v h
    cases p with
    | mk a b =>
      simp only [List.lookup] at h
      split at h
      · rw [Option.some.injEq] at h
        subst h
        simp
      · simpa using Or.inr (ih k v h)

theorem lookup_some_key {α β : Type} [BEq α] [LawfulBEq α] :
    ∀ (l : List (α × β)) (k : α) (v : β), l.lookup k = some v →
      k ∈ l.map Prod.fst := by
  intro l
  induction l with
  | nil =>
    intro k v h
    simp [List.lookup] at h
  | cons p rest ih =>
    intro k v h
    cases p with
    | mk a b =>
      simp only [List.lookup] at h
      split at h
      · next heq =>
        have : k = a := eq_of_beq heq
        subst this
        simp
      · simpa using Or.inr (ih k v h)

theorem TaskGraph.mem_sortedDeps {g : TaskGraph} {t d : String} :
    d ∈ g.sortedDeps t ↔ d ∈ g.depsOf t := mem_sortDescBy

theorem TaskGraph.edge_sorted_iff {g : TaskGraph} {a b : String} :
    Edge g.sortedDeps a b ↔ Edge g.depsOf a b := TaskGraph.mem_sortedDeps

theorem TaskGraph.isCycle_sorted_iff (g : TaskGraph) :
    ∀ l, IsCycle g.sortedDeps l ↔ IsCycle g.depsOf l := by
  intro l
  cases l with
  | nil => exact Iff.rfl
  | cons a rest =>
    unfold IsCycle
    constructor
    · rintro ⟨hc, hl⟩
      exact ⟨hc.imp (fun x y h => TaskGraph.edge_sorted_iff.mp h),
        TaskGraph.edge_sorted_iff.mp hl⟩
    · rintro ⟨hc, hl⟩
      exact ⟨hc.imp (fun x y h => TaskGraph.edge_sorted_iff.mpr h),
        TaskGraph.edge_sorted_iff.mpr hl⟩

theorem TaskGraph.source_mem_tasks {g : TaskGraph} {a b : String}
    (h : b ∈ g.depsOf a) : a ∈ g.tasks := by
  unfold TaskGraph.depsOf at h
  cases hlk : g.dependencies.lookup a with
  | none =>
    rw [hlk] at h
    cases h
  | some ds =>
    have hkey := lookup_some_key g.dependencies a ds hlk
    unfold TaskGraph.tasks
    rw [mem_sortStrings, List.mem_dedup]
    exact List.mem_append_left _ hkey

theorem TaskGraph.sortedDeps_subset_universe (g : TaskGraph) :
    ∀ t, ∀ d ∈ g.sortedDeps t, d ∈ g.nodeUniverse := by
  intro t d hd
  rw [TaskGraph.mem_sortedDeps] at hd
  unfold TaskGraph.depsOf at hd
  cases hlk : g.dependencies.lookup t with
  | none =>
    rw [hlk] at hd
    cases hd
  | some ds =>
    rw [hlk] at hd
    have hval := lookup_some_value g.dependencies t ds hlk
    unfold TaskGraph.nodeUniverse
    refine List.mem_append_right _ ?_
    exact List.mem_join.mpr ⟨ds, hval, hd⟩

theorem TaskGraph.tasks_subset_universe (g : TaskGraph) :
    ∀ t ∈ g.tasks, t ∈ g.nodeUniverse := by
  intro t ht
  exact List.mem_append_left _ ht

/-- A successful `get_cleanup_order` certifies that the stored dependency
graph is acyclic: positions in the returned order strictly decrease along
dependency edges. -/
theorem TaskGraph.acyclic_of_ok {g : TaskGraph} {ord : List String}
    (h : g.get_cleanup_order = .ok ord) : ∀ l, ¬ IsCycle g.depsOf l := by
  obtain ⟨_, _, hgood⟩ := visitRootsD_ok g.tasks [] ord h
  have hg := hgood (goodOrder_nil _)
  have hcov : ∀ a b, Edge g.sortedDeps a b → a ∈ ord := by
    intro a b he
    have ha : a ∈ g.tasks :=
      TaskGraph.source_mem_tasks (TaskGraph.edge_sorted_iff.mp he)
    exact (visitRootsD_ok g.tasks [] ord h).2.1 a ha
  have hacyc := acyclic_of_goodOrder hg hcov
  intro l hl
  exact hacyc l ((TaskGraph.isCycle_sorted_iff g l).mpr hl)

theorem TaskGraph.no_fuel_error {g : TaskGraph} :
    g.get_cleanup_order ≠ .error .outOfFuel := by
  unfold TaskGraph.get_cleanup_order
  exact @visitRootsD_no_fuel g.sortedDeps g.nodeUniverse
    (g.nodeUniverse.length + 1)
    (fun t _ d hd => TaskGraph.sortedDeps_subset_universe g t d hd)
    (by omega) g.tasks []
    (fun r hr => TaskGraph.tasks_subset_universe g r hr)

/-- On a `GoodOrder` list no cycle can run entirely inside the list:
restricting the dependency function to listed nodes gives a graph whose
every edge-source is listed, so the order positions give a decreasing rank
around the cycle. -/
theorem goodOrder_no_cycle_within {deps : String → List String}
    {ord l : List String} (hg : GoodOrder deps ord) (hcyc : IsCycle deps l)
    (hsub : ∀ x ∈ l, x ∈ ord) : False := by
  classical
  have hg' : GoodOrder (fun t => if t ∈ ord then deps t else []) ord := by
    refine ⟨hg.1, ?_⟩
    intro t ht d hd
    simp only [if_pos ht] at hd
    exact hg.2 t ht d hd
  have hcov : ∀ a b, Edge (fun t => if t ∈ ord then deps t else []) a b →
      a ∈ ord := by
    intro a b he
    by_cases ha : a ∈ ord
    · exact ha
    · unfold Edge at he
      simp only [if_neg ha] at he
      cases he
  have hacyc := acyclic_of_goodOrder hg' hcov
  apply hacyc l
  cases l with
  | nil => exact hcyc
  | cons a rest =>
    obtain ⟨hc, hl⟩ := hcyc
    refine ⟨?_, ?_⟩
    · refine (List.Chain.iff_mem.mp hc).imp ?_
      intro x y hxy
      obtain ⟨hx, hy, hr⟩ := hxy
      unfold Edge
      simp only [if_pos (hsub x hx)]
      exact hr
    · unfold Edge
      simp only [if_pos (hsub _ (List.getLast_mem (List.cons_ne_nil a rest)))]
      exact hl

theorem Application.resolve_deps_subset_universe (app : Application) :
    ∀ t, ∀ d ∈ app.depsOf t, d ∈ app.nodeUniverse := by
  intro t d hd
  unfold Application.depsOf at hd
  cases hlk : app.dependency_graph.lookup t with
  | none =>
    rw [hlk] at hd
    cases hd
  | some ds =>
    rw [hlk] at hd
    have hval := lookup_some_value app.dependency_graph t ds hlk
    exact List.mem_append_right _ (List.mem_join.mpr ⟨ds, hval, hd⟩)

theorem Application.resolve_no_fuel_error {app : Application} :
    app.resolve_dependencies ≠ .error .outOfFuel := by
  unfold Application.resolve_dependencies
  exact @visitRootsD_no_fuel app.depsOf app.nodeUniverse
    (app.nodeUniverse.length + 1)
    (fun t _ d hd => Application.resolve_deps_subset_universe app t d hd)
    (by omega) app.services []
    (fun r hr => List.mem_append_left _ hr)

/-- A successful `_resolve_dependencies` whose result covers every key of
the dependency dictionary certifies that the dependency graph is acyclic. -/
theorem Application.acyclic_of_ok_keys {app : Application} {ord : List String}
    (h : app.resolve_dependencies = .ok ord)
    (hkeys : ∀ k ∈ app.dependency_graph.map Prod.fst, k ∈ ord) :
    ∀ l, ¬ IsCycle app.depsOf l := by
  obtain ⟨_, _, hgood⟩ := visitRootsD_ok app.services [] ord h
  have hg := hgood (goodOrder_nil _)
  have hcov : ∀ a b, Edge app.depsOf a b → a ∈ ord := by
    intro a b he
    unfold Edge Application.depsOf at he
    cases hlk : app.dependency_graph.lookup a with
    | none =>
      rw [hlk] at he
      cases he
    | some ds =>
      exact hkeys a (lookup_some_key app.dependency_graph a ds hlk)
  exact acyclic_of_goodOrder hg hcov

/-- C3 (amended).  For every stored dependency graph of `TaskGraph`
(scripts/shutdown.py lines 361-404): if the graph is acyclic,
`get_cleanup_order` succeeds, the returned order contains every task, and
every node of the order appears after all of its dependencies; if the graph
contains a cycle, `get_cleanup_order` fails with a `ValueError` (not a
`CycleError`, which does not exist in this codebase) whose message names a
node lying on a cycle.  Likewise for `Application._resolve_dependencies`
(main.py lines 137-158): on an acyclic graph it succeeds with an order
containing every service in which every node appears after its
dependencies, and a cycle through registered services makes it fail with a
`ValueError` that names no node.  The amendment drops the claimed
lexicographic tie-break of the original claim: only the root loop of
`get_cleanup_order` is sorted lexicographically, while dependencies are
enumerated by descending weight with equal-weight ties following the
unspecified Python set iteration order (see the counterexample), and
`_resolve_dependencies` sorts nothing. -/
theorem c3_order_topological :
    (∀ g : TaskGraph, (∀ l, ¬ IsCycle g.depsOf l) →
      ∃ ord, g.get_cleanup_order = .ok ord ∧ (∀ t ∈ g.tasks, t ∈ ord) ∧
        (∀ t ∈ ord, ∀ d ∈ g.depsOf t,
          d ∈ ord ∧ ord.indexOf d < ord.indexOf t)) ∧
    (∀ (g : TaskGraph) (l : List String), IsCycle g.depsOf l →
      ∃ p tk, g.get_cleanup_order = .error (.cycle p tk) ∧
        (PyExc.valueErrorCircular p tk).className = "ValueError" ∧
        tk ∈ (PyExc.valueErrorCircular p tk).namedNodes ∧
        ∃ cyc, IsCycle g.depsOf cyc ∧ tk ∈ cyc) ∧
    (∀ app : Application, (∀ l, ¬ IsCycle app.depsOf l) →
      ∃ ord, app.resolve_dependencies = .ok ord ∧
        (∀ s ∈ app.services, s ∈ ord) ∧
        (∀ t ∈ ord, ∀ d ∈ app.depsOf t,
          d ∈ ord ∧ ord.indexOf d < ord.indexOf t)) ∧
    (∀ (app : Application) (l : List String), IsCycle app.depsOf l →
      (∀ x ∈ l, x ∈ app.services) →
      ∃ p tk, app.resolve_dependencies = .error (.cycle p tk) ∧
        PyExc.valueErrorCircularNoNode.className = "ValueError" ∧
        PyExc.valueErrorCircularNoNode.namedNodes = []) := by
  refine ⟨?_, ?_, ?_, ?_⟩
  · intro g hacyc
    cases hres : g.get_cleanup_order with
    | error e =>
      cases e with
      | cycle p tk =>
        obtain ⟨cyc, hcyc, _⟩ := visitRootsD_err g.tasks [] p tk hres
        exact absurd ((TaskGraph.isCycle_sorted_iff g cyc).mp hcyc) (hacyc cyc)
      | outOfFuel => exact absurd hres TaskGraph.no_fuel_error
    | ok ord =>
      obtain ⟨_, hcov, hgood⟩ := visitRootsD_ok g.tasks [] ord hres
      have hg := hgood (goodOrder_nil _)
      refine ⟨ord, rfl, hcov, ?_⟩
      intro t ht d hd
      exact hg.2 t ht d (TaskGraph.mem_sortedDeps.mpr hd)
  · intro g l hl
    cases hres : g.get_cleanup_order with
    | error e =>
      cases e with
      | cycle p tk =>
        obtain ⟨cyc, hcyc, htk⟩ := visitRootsD_err g.tasks [] p tk hres
        refine ⟨p, tk, rfl, rfl, ?_, cyc,
          (TaskGraph.isCycle_sorted_iff g cyc).mp hcyc, htk⟩
        simp [PyExc.namedNodes]
      | outOfFuel => exact absurd hres TaskGraph.no_fuel_error
    | ok ord => exact absurd hl (TaskGraph.acyclic_of_ok hres l)
  · intro app hacyc
    cases hres : app.resolve_dependencies with
    | error e =>
      cases e with
      | cycle p tk =>
        obtain ⟨cyc, hcyc, _⟩ := visitRootsD_err app.services [] p tk hres
        exact absurd hcyc (hacyc cyc)
      | outOfFuel => exact absurd hres Application.resolve_no_fuel_error
    | ok ord =>
      obtain ⟨_, hcov, hgood⟩ := visitRootsD_ok app.services [] ord hres
      exact ⟨ord, rfl, hcov, (hgood (goodOrder_nil _)).2⟩
  · intro app l hl hsub
    cases hres : app.resolve_dependencies with
    | error e =>
      cases e with
      | cycle p tk => exact ⟨p, tk, rfl, rfl, rfl⟩
      | outOfFuel => exact absurd hres Application.resolve_no_fuel_error
    | ok ord =>
      obtain ⟨_, hcov, hgood⟩ := visitRootsD_ok app.services [] ord hres
      exact absurd (goodOrder_no_cycle_within (hgood (goodOrder_nil _)) hl
        (fun x hx => hcov x (hsub x hx))) id

/-- C3 (counterexample).  The two `TaskGraph` states below represent the
same Python graph: task "a" depends on the set containing "b" and "c"
(Python sets are unordered, so both value lists are legitimate iteration
orders of that set, as the permutation conjunct records), with equal
(default) weights.  Yet `get_cleanup_order` returns two different orders,
and in the first one the equal-weight dependencies come out in
set-iteration order with "c" before "b" rather than lexicographically.
This refutes the claim that the order is deterministic with ties broken
lexicographically. -/
theorem c3_counterexample :
    List.Perm ((TaskGraph.mk [("a", ["c", "b"])] ["c", "b"] []).depsOf "a")
      ((TaskGraph.mk [("a", ["b", "c"])] ["c", "b"] []).depsOf "a") ∧
    (TaskGraph.mk [("a", ["c", "b"])] ["c", "b"] []).weightOf "a" "b" =
      (TaskGraph.mk [("a", ["c", "b"])] ["c", "b"] []).weightOf "a" "c" ∧
    (TaskGraph.mk [("a", ["c", "b"])] ["c", "b"] []).get_cleanup_order =
      .ok ["c", "b", "a"] ∧
    (TaskGraph.mk [("a", ["b", "c"])] ["c", "b"] []).get_cleanup_order =
      .ok ["b", "c", "a"] ∧
    (["c", "b", "a"] : List String) ≠ ["b", "c", "a"] ∧
    (["c", "b", "a"] : List String).indexOf "c" <
      (["c", "b", "a"] : List String).indexOf "b" := by
  refine ⟨?_, ?_, ?_, ?_, ?_, ?_⟩ <;> decide

/-- C3 (witness).  The amended theorem applied at concrete graphs: an
acyclic two-node `TaskGraph` and `Application`, and cyclic ones. -/
theorem c3_order_topological_witness :
    ((∀ l, ¬ IsCycle (TaskGraph.mk [("b", ["a"])] ["a"] []).depsOf l) ∧
      (∃ ord, (TaskGraph.mk [("b", ["a"])] ["a"] []).get_cleanup_order = .ok ord ∧
        (∀ t ∈ (TaskGraph.mk [("b", ["a"])] ["a"] []).tasks, t ∈ ord) ∧
        (∀ t ∈ ord, ∀ d ∈ (TaskGraph.mk [("b", ["a"])] ["a"] []).depsOf t,
          d ∈ ord ∧ ord.indexOf d < ord.indexOf t))) ∧
    (IsCycle (TaskGraph.mk [("a", ["b"]), ("b", ["a"])] ["b", "a"] []).depsOf
        ["a", "b"] ∧
      (∃ p tk, (TaskGraph.mk [("a", ["b"]), ("b", ["a"])] ["b", "a"]
          []).get_cleanup_order = .error (.cycle p tk) ∧
        (PyExc.valueErrorCircular p tk).className = "ValueError" ∧
        tk ∈ (PyExc.valueErrorCircular p tk).namedNodes ∧
        ∃ cyc, IsCycle (TaskGraph.mk [("a", ["b"]), ("b", ["a"])] ["b", "a"]
          []).depsOf cyc ∧ tk ∈ cyc)) ∧
    ((∀ l, ¬ IsCycle (Application.mk ["a", "b"] [("b", ["a"])]).depsOf l) ∧
      (∃ ord, (Application.mk ["a", "b"] [("b", ["a"])]).resolve_dependencies =
          .ok ord ∧
        (∀ s ∈ (Application.mk ["a", "b"] [("b", ["a"])]).services, s ∈ ord) ∧
        (∀ t ∈ ord, ∀ d ∈ (Application.mk ["a", "b"] [("b", ["a"])]).depsOf t,
          d ∈ ord ∧ ord.indexOf d < ord.indexOf t))) ∧
    (IsCycle (Application.mk ["a", "b"]
        [("a", ["b"]), ("b", ["a"])]).depsOf ["a", "b"] ∧
      (∀ x ∈ (["a", "b"] : List String),
        x ∈ (Application.mk ["a", "b"] [("a", ["b"]), ("b", ["a"])]).services) ∧
      (∃ p tk, (Application.mk ["a", "b"]
          [("a", ["b"]), ("b", ["a"])]).resolve_dependencies =
            .error (.cycle p tk) ∧
        PyExc.valueErrorCircularNoNode.className = "ValueError" ∧
        PyExc.valueErrorCircularNoNode.namedNodes = [])) := by
  have hacycA : ∀ l, ¬ IsCycle (TaskGraph.mk [("b", ["a"])] ["a"] []).depsOf l :=
    TaskGraph.acyclic_of_ok (by decide :
      (TaskGraph.mk [("b", ["a"])] ["a"] []).get_cleanup_order = .ok ["a", "b"])
  have hacycApp : ∀ l, ¬ IsCycle (Application.mk ["a", "b"]
      [("b", ["a"])]).depsOf l :=
    Application.acyclic_of_ok_keys (by decide :
      (Application.mk ["a", "b"] [("b", ["a"])]).resolve_dependencies =
        .ok ["a", "b"]) (by decide)
  refine ⟨⟨hacycA, c3_order_topological.1 _ hacycA⟩,
    ⟨by decide, c3_order_topological.2.1 _ ["a", "b"] (by decide)⟩,
    ⟨hacycApp, c3_order_topological.2.2.1 _ hacycApp⟩,
    ⟨by decide, by decide,
      c3_order_topological.2.2.2 _ ["a", "b"] (by decide) (by decide)⟩⟩

theorem hcList_false_of {deps : String → List String} {path : List String}
    {visit1 : String → List String → Option (Bool × List String)}
    (hD : ∀ d v v', visit1 d v = some (false, v') →
      (∀ x ∈ v, x ∈ v') ∧ d ∈ v' ∧ d ∉ path ∧
      (VisGood deps v path → VisGood deps v' path)) :
    ∀ ds v v', hcList visit1 ds v = some (false, v') →
      (∀ x ∈ v, x ∈ v') ∧ (∀ d ∈ ds, d ∈ v' ∧ d ∉ path) ∧
      (VisGood deps v path → VisGood deps v' path) := by
  intro ds
  induction ds with
  | nil =>
    intro v v' h
    simp only [hcList, Option.some.injEq, Prod.mk.injEq] at h
    obtain ⟨-, rfl⟩ := h
    exact ⟨fun x hx => hx, by simp, fun hg => hg⟩
  | cons d rest ih =>
    intro v v' h
    simp only [hcList] at h
    cases hv : visit1 d v with
    | none =>
      rw [hv] at h
      cases h
    | some bv =>
      cases bv with
      | mk b v₁ =>
        cases b with
        | true =>
          rw [hv] at h
          simp at h
        | false =>
          rw [hv] at h
          obtain ⟨hmono₁, hd₁, hdp₁, hgood₁⟩ := hD d v v₁ hv
          obtain ⟨hmono₂, hrest, hgood₂⟩ := ih v₁ v' h
          refine ⟨fun x hx => hmono₂ x (hmono₁ x hx), ?_,
            fun hg => hgood₂ (hgood₁ hg)⟩
          intro d' hd'
          rcases List.mem_cons.mp hd' with rfl | hd'
          · exact ⟨hmono₂ d' hd₁, hdp₁⟩
          · exact hrest d' hd'

theorem has_cycle_false {deps : String → List String} :
    ∀ fuel task path visited v',
      has_cycle deps fuel task path visited = some (false, v') →
      (∀ x ∈ visited, x ∈ v') ∧ task ∈ v' ∧ task ∉ path ∧
      (VisGood deps visited path → VisGood deps v' path) := by
  intro fuel
  induction fuel with
  | zero =>
    intro task path visited v' h
    simp [has_cycle] at h
  | succ f ih =>
    intro task path visited v' h
    simp only [has_cycle] at h
    by_cases hp : task ∈ path
    · rw [if_pos hp] at h
      simp at h
    · rw [if_neg hp] at h
      by_cases hv : task ∈ visited
      · rw [if_pos hv] at h
        simp only [Option.some.injEq, Prod.mk.injEq] at h
        obtain ⟨-, rfl⟩ := h
        exact ⟨fun x hx => hx, hv, hp, fun hg => hg⟩
      · rw [if_neg hv] at h
        have hD : ∀ d vv vv',
            has_cycle deps f d (path ++ [task]) vv = some (false, vv') →
            (∀ x ∈ vv, x ∈ vv') ∧ d ∈ vv' ∧ d ∉ path ++ [task] ∧
            (VisGood deps vv (path ++ [task]) →
              VisGood deps vv' (path ++ [task])) :=
          fun d vv vv' hh => ih d (path ++ [task]) vv vv' hh
        obtain ⟨hmono, hdall, hgoodL⟩ :=
          hcList_false_of hD (deps task) (visited ++ [task]) v' h
        have htv' : task ∈ v' :=
          hmono task (List.mem_append_right _ (List.mem_singleton_self task))
        refine ⟨fun x hx => hmono x (List.mem_append_left _ hx), htv', hp, ?_⟩
        rintro ⟨L, hL, hmemL⟩
        have hstep1 : VisGood deps (visited ++ [task]) (path ++ [task]) := by
          refine ⟨L, hL, ?_⟩
          intro x
          rw [hmemL x]
          constructor
          · rintro ⟨hxv, hxp⟩
            refine ⟨List.mem_append_left _ hxv, ?_⟩
            intro hx'
            rcases List.mem_append.mp hx' with h1 | h1
            · exact hxp h1
            · rcases List.mem_singleton.mp h1 with rfl
              exact hv hxv
          · rintro ⟨hxv, hxp⟩
            have hxt : x ≠ task := by
              intro he
              subst he
              exact hxp (List.mem_append_right _ (List.mem_singleton_self x))
            constructor
            · rcases List.mem_append.mp hxv with h1 | h1
              · exact h1
              · exact absurd (List.mem_singleton.mp h1) hxt
            · intro hxpp
              exact hxp (List.mem_append_left _ hxpp)
        obtain ⟨L', hL', hmemL'⟩ := hgoodL hstep1
        have htL' : task ∉ L' := by
          intro ht
          exact ((hmemL' task).mp ht).2
            (List.mem_append_right _ (List.mem_singleton_self task))
        refine ⟨L' ++ [task], goodOrder_append hL' htL' ?_, ?_⟩
        · intro dd hdd
          obtain ⟨h1, h2⟩ := hdall dd hdd
          exact (hmemL' dd).mpr ⟨h1, h2⟩
        · intro x
          constructor
          · intro hx
            rcases List.mem_append.mp hx with h1 | h1
            · obtain ⟨ha, hb⟩ := (hmemL' x).mp h1
              exact ⟨ha, fun hc => hb (List.mem_append_left _ hc)⟩
            · rcases List.mem_singleton.mp h1 with rfl
              exact ⟨htv', hp⟩
          · rintro ⟨hxv, hxp⟩
            by_cases hxt : x = task
            · subst hxt
              exact List.mem_append_right _ (List.mem_singleton_self x)
            · refine List.mem_append_left _ ((hmemL' x).mpr ⟨hxv, ?_⟩)
              intro hc
              rcases List.mem_append.mp hc with h1 | h1
              · exact hxp h1
              · exact hxt (List.mem_singleton.mp h1)

theorem hcRoots_false {deps : String → List String} {fuel : Nat} :
    ∀ roots visited v', hcRoots deps fuel roots visited = some (false, v') →
      (∀ x ∈ visited, x ∈ v') ∧ (∀ r ∈ roots, r ∈ v') ∧
      (VisGood deps visited [] → VisGood deps v' []) := by
  intro roots
  induction roots with
  | nil =>
    intro visited v' h
    simp only [hcRoots, Option.some.injEq, Prod.mk.injEq] at h
    obtain ⟨-, rfl⟩ := h
    exact ⟨fun x hx => hx, by simp, fun hg => hg⟩
  | cons r rs ih =>
    intro visited v' h
    simp only [hcRoots] at h
    cases hv : has_cycle deps fuel r [] visited with
    | none =>
      rw [hv] at h
      cases h
    | some bv =>
      cases bv with
      | mk b v₁ =>
        cases b with
        | true =>
          rw [hv] at h
          simp at h
        | false =>
          rw [hv] at h
          obtain ⟨hm₁, hr₁, -, hg₁⟩ := has_cycle_false fuel r [] visited v₁ hv
          obtain ⟨hm₂, hrs, hg₂⟩ := ih v₁ v' h
          refine ⟨fun x hx => hm₂ x (hm₁ x hx), ?_, fun hg => hg₂ (hg₁ hg)⟩
          intro r' hr'
          rcases List.mem_cons.mp hr' with rfl | hr'
          · exact hm₂ r' hr₁
          · exact hrs r' hr'

theorem hcList_no_fuel_of {U : List String}
    {visit1 : String → List String → Option (Bool × List String)}
    (hD : ∀ d v, d ∈ U → visit1 d v ≠ none) :
    ∀ ds v, (∀ d ∈ ds, d ∈ U) → hcList visit1 ds v ≠ none := by
  intro ds
  induction ds with
  | nil =>
    intro v _ h
    simp [hcList] at h
  | cons d rest ih =>
    intro v hds h
    simp only [hcList] at h
    cases hv : visit1 d v with
    | none => exact absurd hv (hD d v (hds d (List.mem_cons_self d rest)))
    | some bv =>
      rw [hv] at h
      cases bv with
      | mk b v₁ =>
        cases b with
        | true => cases h
        | false =>
          exact absurd h (ih v₁ (fun d' hd' => hds d' (List.mem_cons_of_mem d hd')))

theorem has_cycle_no_fuel {deps : String → List String} {U : List String}
    (hU : ∀ t ∈ U, ∀ d ∈ deps t, d ∈ U) :
    ∀ fuel task path visited, task ∈ U → path ⊆ U → path.Nodup →
      U.length < fuel + path.length →
      has_cycle deps fuel task path visited ≠ none := by
  intro fuel
  induction fuel with
  | zero =>
    intro task path visited htU hpsub hpnd hlen _
    have := length_le_of_nodup_subset hpnd hpsub
    omega
  | succ f ih =>
    intro task path visited htU hpsub hpnd hlen h
    simp only [has_cycle] at h
    by_cases hp : task ∈ path
    · rw [if_pos hp] at h
      cases h
    · rw [if_neg hp] at h
      by_cases hv : task ∈ visited
      · rw [if_pos hv] at h
        cases h
      · rw [if_neg hv] at h
        have hsub : path ++ [task] ⊆ U := by
          intro x hx
          rcases List.mem_append.mp hx with hx | hx
          · exact hpsub hx
          · rcases List.mem_singleton.mp hx with rfl
            exact htU
        have hnd : (path ++ [task]).Nodup := by
          refine List.Nodup.append hpnd (List.nodup_singleton task) ?_
          intro x hx hx'
          rcases List.mem_singleton.mp hx' with rfl
          exact hp hx
        have hlen' : U.length < f + (path ++ [task]).length := by
          rw [List.length_append, List.length_singleton]
          omega
        exact absurd h (hcList_no_fuel_of
          (fun d vv hdU => ih d (path ++ [task]) vv hdU hsub hnd hlen')
          (deps task) (visited ++ [task]) (hU task htU))

theorem hcRoots_no_fuel {deps : String → List String} {U : List String}
    {fuel : Nat} (hU : ∀ t ∈ U, ∀ d ∈ deps t, d ∈ U)
    (hfuel : U.length < fuel) :
    ∀ roots visited, (∀ r ∈ roots, r ∈ U) →
      hcRoots deps fuel roots visited ≠ none := by
  intro roots
  induction roots with
  | nil =>
    intro visited _ h
    simp [hcRoots] at h
  | cons r rs ih =>
    intro visited hrs h
    simp only [hcRoots] at h
    cases hv : has_cycle deps fuel r [] visited with
    | none =>
      refine absurd hv (has_cycle_no_fuel hU fuel r [] visited
        (hrs r (List.mem_cons_self r rs)) ?_ List.nodup_nil ?_)
      · intro x hx
        cases hx
      · simpa using hfuel
    | some bv =>
      rw [hv] at h
      cases bv with
      | mk b v₁ =>
        cases b with
        | true => cases h
        | false =>
          exact absurd h (ih v₁ (fun r' hr' => hrs r' (List.mem_cons_of_mem r hr')))

theorem DeadlockDetector.waitsOn_subset_universe (d : DeadlockDetector) :
    ∀ t, ∀ x ∈ d.depsOf t, x ∈ d.nodeUniverse := by
  intro t x hx
  unfold DeadlockDetector.depsOf at hx
  cases hlk : d.task_dependencies.lookup t with
  | none =>
    rw [hlk] at hx
    cases hx
  | some ds =>
    rw [hlk] at hx
    have hval := lookup_some_value d.task_dependencies t ds hlk
    exact List.mem_append_right _ (List.mem_join.mpr ⟨ds, hval, hx⟩)

theorem DeadlockDetector.source_mem_keys {d : DeadlockDetector} {a b : String}
    (h : b ∈ d.depsOf a) : a ∈ d.keys := by
  unfold DeadlockDetector.depsOf at h
  cases hlk : d.task_dependencies.lookup a with
  | none =>
    rw [hlk] at h
    cases h
  | some ds => exact lookup_some_key d.task_dependencies a ds hlk

/-- C1 (amended).  For every detector state whose wait-for graph contains a
two-cycle between distinct holders A and B (edges stored for both, with
every stored edge pointing at a key of the graph, which is how the code can
reach this state without tripping over its defaultdict-during-iteration
behaviour), a call to `check_deadlocks` made at least `_check_interval`
after `_last_check` returns true and sets `_state = DETECTED` and
`_last_check = now` - and changes nothing else: in particular NO lock is
force-released (the resource-lock table of the result is exactly that of
the input), no waiter receives a `DeadlockError` from the check, and no
lexicographic choice of a victim exists anywhere in the code.  (The only
`DeadlockError` in the source is raised by
`GracefulShutdown._acquire_resource` to the task that just acquired a
resource, after releasing that task's own lock.) -/
theorem c1_two_cycle_detected_no_release :
    ∀ (d : DeadlockDetector) (now : ℚ) (A B : String),
      A ≠ B → B ∈ d.depsOf A → A ∈ d.depsOf B →
      (∀ p ∈ d.task_dependencies, ∀ x ∈ p.2, x ∈ d.keys) →
      ¬ (now - d.last_check < d.check_interval) →
      d.check_deadlocks now =
        some (true, { d with last_check := now, state := .DETECTED }) ∧
      ({ d with last_check := now, state := .DETECTED } :
        DeadlockDetector).resource_locks = d.resource_locks := by
  intro d now A B hne hAB hBA hwf hthr
  refine ⟨?_, rfl⟩
  unfold DeadlockDetector.check_deadlocks
  rw [if_neg hthr]
  cases hroots : hcRoots d.depsOf (d.nodeUniverse.length + 1) d.keys [] with
  | none =>
    exact absurd hroots (@hcRoots_no_fuel d.depsOf d.nodeUniverse
      (d.nodeUniverse.length + 1)
      (fun t _ x hx => d.waitsOn_subset_universe t x hx) (by omega) d.keys []
      (fun r hr => List.mem_append_left _ hr))
  | some bv =>
    cases bv with
    | mk found v =>
      cases found with
      | false =>
        exfalso
        obtain ⟨-, hkeysv, hgood⟩ := hcRoots_false d.keys [] v hroots
        obtain ⟨L, hL, hmem⟩ := hgood ⟨[], goodOrder_nil _, by simp⟩
        have hA : A ∈ L := (hmem A).mpr
          ⟨hkeysv A (DeadlockDetector.source_mem_keys hAB), by simp⟩
        have hB : B ∈ L := (hmem B).mpr
          ⟨hkeysv B (DeadlockDetector.source_mem_keys hBA), by simp⟩
        have h1 := (hL.2 A hA B hAB).2
        have h2 := (hL.2 B hB A hBA).2
        omega
      | true => rfl

/-- C1 (counterexample).  A concrete detector: holder "a" holds "r1" and
waits for "b" (which holds "r2"), and "b" waits for "a" - a two-cycle in
the wait-for graph.  The check (called 5 seconds after the last one)
returns true, but the lock table of the resulting state is EXACTLY the
input lock table: both locks are still held by their original holders, so
the number of force-released locks is 0, not 1 as the claim states, and no
waiter receives any error from the check. -/
theorem c1_counterexample :
    (DeadlockDetector.mk
        [("r1", ResourceLock.mk "r1" (some "a") ["b"] (some 0)),
         ("r2", ResourceLock.mk "r2" (some "b") ["a"] (some 0))]
        [("a", ["b"]), ("b", ["a"])] .NONE 0 1).check_deadlocks 5 =
      some (true, DeadlockDetector.mk
        [("r1", ResourceLock.mk "r1" (some "a") ["b"] (some 0)),
         ("r2", ResourceLock.mk "r2" (some "b") ["a"] (some 0))]
        [("a", ["b"]), ("b", ["a"])] .DETECTED 5 1) ∧
    ((DeadlockDetector.mk
        [("r1", ResourceLock.mk "r1" (some "a") ["b"] (some 0)),
         ("r2", ResourceLock.mk "r2" (some "b") ["a"] (some 0))]
        [("a", ["b"]), ("b", ["a"])] .DETECTED 5 1).resource_locks.filter
          (fun p => p.2.acquired_by.isSome)).length = 2 ∧
    (DeadlockDetector.mk
        [("r1", ResourceLock.mk "r1" (some "a") ["b"] (some 0)),
         ("r2", ResourceLock.mk "r2" (some "b") ["a"] (some 0))]
        [("a", ["b"]), ("b", ["a"])] .DETECTED 5 1).resource_locks =
      (DeadlockDetector.mk
        [("r1", ResourceLock.mk "r1" (some "a") ["b"] (some 0)),
         ("r2", ResourceLock.mk "r2" (some "b") ["a"] (some 0))]
        [("a", ["b"]), ("b", ["a"])] .NONE 0 1).resource_locks := by
  refine ⟨?_, by decide, by decide⟩
  unfold DeadlockDetector.check_deadlocks
  rw [if_neg (by norm_num :
    ¬ ((5 : ℚ) - (DeadlockDetector.mk
      [("r1", ResourceLock.mk "r1" (some "a") ["b"] (some 0)),
       ("r2", ResourceLock.mk "r2" (some "b") ["a"] (some 0))]
      [("a", ["b"]), ("b", ["a"])] .NONE 0 1).last_check <
      (DeadlockDetector.mk
      [("r1", ResourceLock.mk "r1" (some "a") ["b"] (some 0)),
       ("r2", ResourceLock.mk "r2" (some "b") ["a"] (some 0))]
      [("a", ["b"]), ("b", ["a"])] .NONE 0 1).check_interval))]
  rw [(by decide : hcRoots (DeadlockDetector.mk
      [("r1", ResourceLock.mk "r1" (some "a") ["b"] (some 0)),
       ("r2", ResourceLock.mk "r2" (some "b") ["a"] (some 0))]
      [("a", ["b"]), ("b", ["a"])] .NONE 0 1).depsOf
      ((DeadlockDetector.mk
      [("r1", ResourceLock.mk "r1" (some "a") ["b"] (some 0)),
       ("r2", ResourceLock.mk "r2" (some "b") ["a"] (some 0))]
      [("a", ["b"]), ("b", ["a"])] .NONE 0 1).nodeUniverse.length + 1)
      (DeadlockDetector.mk
      [("r1", ResourceLock.mk "r1" (some "a") ["b"] (some 0)),
       ("r2", ResourceLock.mk "r2" (some "b") ["a"] (some 0))]
      [("a", ["b"]), ("b", ["a"])] .NONE 0 1).keys [] =
      some (true, ["a", "b"]))]
  rfl

/-- C1 (witness).  The amended theorem applied at the concrete two-cycle
detector state. -/
theorem c1_two_cycle_witness :
    (("a" : String) ≠ "b" ∧
      "b" ∈ (DeadlockDetector.mk []
        [("a", ["b"]), ("b", ["a"])] .NONE 0 1).depsOf "a" ∧
      "a" ∈ (DeadlockDetector.mk []
        [("a", ["b"]), ("b", ["a"])] .NONE 0 1).depsOf "b" ∧
      (∀ p ∈ (DeadlockDetector.mk []
          [("a", ["b"]), ("b", ["a"])] .NONE 0 1).task_dependencies,
        ∀ x ∈ p.2, x ∈ (DeadlockDetector.mk []
          [("a", ["b"]), ("b", ["a"])] .NONE 0 1).keys) ∧
      ¬ ((5 : ℚ) - (DeadlockDetector.mk []
          [("a", ["b"]), ("b", ["a"])] .NONE 0 1).last_check <
        (DeadlockDetector.mk []
          [("a", ["b"]), ("b", ["a"])] .NONE 0 1).check_interval)) ∧
    ((DeadlockDetector.mk [] [("a", ["b"]), ("b", ["a"])] .NONE 0
        1).check_deadlocks 5 =
      some (true, { (DeadlockDetector.mk []
        [("a", ["b"]), ("b", ["a"])] .NONE 0 1) with
          last_check := 5, state := .DETECTED }) ∧
      ({ (DeadlockDetector.mk [] [("a", ["b"]), ("b", ["a"])] .NONE 0 1) with
          last_check := 5, state := .DETECTED } :
        DeadlockDetector).resource_locks =
        (DeadlockDetector.mk [] [("a", ["b"]), ("b", ["a"])] .NONE 0
          1).resource_locks) :=
  ⟨⟨by decide, by decide, by decide, by decide,
      (by norm_num : ¬ ((5 : ℚ) - 0 < 1))⟩,
    c1_two_cycle_detected_no_release _ 5 "a" "b" (by decide) (by decide)
      (by decide) (by decide) (by norm_num : ¬ ((5 : ℚ) - 0 < 1))⟩

/-- C10 (amended).  A call to `check_deadlocks` made less than
`_check_interval` (1.0 second at construction) after `_last_check` returns
false immediately and leaves the detector exactly unchanged; since this
holds for every detector state it is independent of the wait-for graph -
the graph is not examined even when it holds a cycle (first conjunct).
But `_last_check` is the time of the most recent NON-throttled call (or of
construction), not of the most recent call, because a throttled call
returns before the update: so the claim holds for a pair of calls only
when the first call itself ran the check (second conjunct); the
counterexample below shows the original unrestricted claim false. -/
theorem c10_throttled_check :
    (∀ (d : DeadlockDetector) (now : ℚ),
      now - d.last_check < d.check_interval →
      d.check_deadlocks now = some (false, d)) ∧
    (∀ (d : DeadlockDetector) (now₀ now₁ : ℚ) (r₀ : Bool)
        (d₀ : DeadlockDetector),
      ¬ (now₀ - d.last_check < d.check_interval) →
      d.check_deadlocks now₀ = some (r₀, d₀) →
      now₁ - now₀ < d.check_interval →
      d₀.check_deadlocks now₁ = some (false, d₀)) := by
  constructor
  · intro d now h
    unfold DeadlockDetector.check_deadlocks
    rw [if_pos h]
  · intro d now₀ now₁ r₀ d₀ hthr h₀ h₁
    unfold DeadlockDetector.check_deadlocks at h₀
    rw [if_neg hthr] at h₀
    cases hroots : hcRoots d.depsOf (d.nodeUniverse.length + 1) d.keys [] with
    | none =>
      rw [hroots] at h₀
      cases h₀
    | some bv =>
      rw [hroots] at h₀
      cases bv with
      | mk f v =>
        rw [Option.some.injEq, Prod.mk.injEq] at h₀
        obtain ⟨-, hd₀⟩ := h₀
        subst hd₀
        unfold DeadlockDetector.check_deadlocks
        rw [if_pos h₁]

/-- C10 (counterexample).  Two calls to `check_deadlocks` made 3/5 of a
second apart - less than the 1-second check interval - where the second
call nevertheless examines the wait-for graph and returns true on its
two-cycle.  The first call, 9/10 s after construction, is itself throttled
and does not update `_last_check`; the second call at 3/2 s is then more
than one second after `_last_check` (still 0) and runs the full check.
This refutes the claim as stated, which quantifies over every pair of
calls less than the check interval apart. -/
theorem c10_counterexample :
    (DeadlockDetector.mk [] [("a", ["b"]), ("b", ["a"])] .NONE 0
        1).check_deadlocks (9/10) =
      some (false,
        DeadlockDetector.mk [] [("a", ["b"]), ("b", ["a"])] .NONE 0 1) ∧
    ((3 : ℚ)/2 - 9/10 < 1) ∧
    (DeadlockDetector.mk [] [("a", ["b"]), ("b", ["a"])] .NONE 0
        1).check_deadlocks (3/2) =
      some (true,
        DeadlockDetector.mk [] [("a", ["b"]), ("b", ["a"])] .DETECTED
          (3/2) 1) := by
  refine ⟨?_, by norm_num, ?_⟩
  · unfold DeadlockDetector.check_deadlocks
    rw [if_pos (by norm_num : (9 : ℚ)/10 - 0 < 1)]
  · unfold DeadlockDetector.check_deadlocks
    rw [if_neg (by norm_num : ¬ ((3 : ℚ)/2 - 0 < 1))]
    rw [(by decide : hcRoots (DeadlockDetector.mk []
        [("a", ["b"]), ("b", ["a"])] .NONE 0 1).depsOf
        ((DeadlockDetector.mk [] [("a", ["b"]), ("b", ["a"])] .NONE 0
          1).nodeUniverse.length + 1)
        (DeadlockDetector.mk [] [("a", ["b"]), ("b", ["a"])] .NONE 0 1).keys
        [] = some (true, ["a", "b"]))]
    rfl

/-- C10 (witness).  The amended theorem applied at concrete calls: a
throttled call half a second after construction, and a non-throttled call
at 2 s followed by a call at 5/2 s that is throttled relative to it. -/
theorem c10_throttled_check_witness :
    (((1 : ℚ)/2 - (DeadlockDetector.mk [] [("a", ["b"]), ("b", ["a"])] .NONE
        0 1).last_check <
      (DeadlockDetector.mk [] [("a", ["b"]), ("b", ["a"])] .NONE 0
        1).check_interval) ∧
      (DeadlockDetector.mk [] [("a", ["b"]), ("b", ["a"])] .NONE 0
        1).check_deadlocks (1/2) =
        some (false,
          DeadlockDetector.mk [] [("a", ["b"]), ("b", ["a"])] .NONE 0 1)) ∧
    ((¬ ((2 : ℚ) - (DeadlockDetector.mk [] [("a", ["b"]), ("b", ["a"])] .NONE
        0 1).last_check <
      (DeadlockDetector.mk [] [("a", ["b"]), ("b", ["a"])] .NONE 0
        1).check_interval)) ∧
      (DeadlockDetector.mk [] [("a", ["b"]), ("b", ["a"])] .NONE 0
        1).check_deadlocks 2 =
        some (true,
          DeadlockDetector.mk [] [("a", ["b"]), ("b", ["a"])] .DETECTED 2 1) ∧
      ((5 : ℚ)/2 - 2 < 1) ∧
      (DeadlockDetector.mk [] [("a", ["b"]), ("b", ["a"])] .DETECTED 2
        1).check_deadlocks (5/2) =
        some (false,
          DeadlockDetector.mk [] [("a", ["b"]), ("b", ["a"])] .DETECTED 2
            1)) := by
  have h₀ : (DeadlockDetector.mk [] [("a", ["b"]), ("b", ["a"])] .NONE 0
      1).check_deadlocks 2 =
      some (true,
        DeadlockDetector.mk [] [("a", ["b"]), ("b", ["a"])] .DETECTED 2 1) := by
    unfold DeadlockDetector.check_deadlocks
    rw [if_neg (by norm_num : ¬ ((2 : ℚ) - 0 < 1))]
    rw [(by decide : hcRoots (DeadlockDetector.mk []
        [("a", ["b"]), ("b", ["a"])] .NONE 0 1).depsOf
        ((DeadlockDetector.mk [] [("a", ["b"]), ("b", ["a"])] .NONE 0
          1).nodeUniverse.length + 1)
        (DeadlockDetector.mk [] [("a", ["b"]), ("b", ["a"])] .NONE 0 1).keys
        [] = some (true, ["a", "b"]))]
    rfl
  refine ⟨⟨by norm_num, c10_throttled_check.1 _ (1/2) (by norm_num)⟩,
    ⟨by norm_num, h₀, by norm_num,
      c10_throttled_check.2 _ 2 (5/2) true _ (by norm_num) h₀ (by norm_num)⟩⟩

theorem call_closed_failure {cb : CircuitBreaker} {now : ℚ}
    (hst : cb.state = .CLOSED) :
    cb.call now false = ⟨.error .wrapped, true, cb.on_failure now⟩ := by
  unfold CircuitBreaker.call CircuitBreaker.should_allow_request
  rw [hst]
  rfl

theorem on_failure_closed (cb : CircuitBreaker) (now : ℚ)
    (hst : cb.state = .CLOSED) :
    (cb.on_failure now).config = cb.config ∧
    (cb.on_failure now).stats.consecutive_failures =
      cb.stats.consecutive_failures + 1 ∧
    (cb.on_failure now).state =
      (if cb.config.failure_threshold ≤ cb.stats.consecutive_failures + 1
       then CircuitState.OPEN else .CLOSED) := by
  unfold CircuitBreaker.on_failure
  simp only [hst]
  by_cases hthr : cb.config.failure_threshold ≤ cb.stats.consecutive_failures + 1
  · rw [if_pos (by simpa using hthr), if_pos hthr]
    exact ⟨rfl, rfl, rfl⟩
  · rw [if_neg (by simpa using hthr), if_neg hthr]
    rw [if_neg (by simp)]
    exact ⟨rfl, rfl, rfl⟩

theorem applyFailures_spec :
    ∀ (ts : List ℚ) (cb : CircuitBreaker),
      cb.state = .CLOSED →
      cb.stats.consecutive_failures + ts.length ≤
        cb.config.failure_threshold →
      (cb.applyFailures ts).config = cb.config ∧
      (cb.applyFailures ts).stats.consecutive_failures =
        cb.stats.consecutive_failures + ts.length ∧
      (cb.applyFailures ts).state =
        (if 0 < ts.length ∧
            cb.stats.consecutive_failures + ts.length =
              cb.config.failure_threshold
         then CircuitState.OPEN else .CLOSED) := by
  intro ts
  induction ts with
  | nil =>
    intro cb hst hle
    simp [CircuitBreaker.applyFailures, hst]
  | cons t rest ih =>
    intro cb hst hle
    simp only [CircuitBreaker.applyFailures, call_closed_failure hst]
    obtain ⟨hcfg, hcf, hstate⟩ := on_failure_closed cb t hst
    rw [List.length_cons] at hle
    by_cases hthr : cb.config.failure_threshold ≤
        cb.stats.consecutive_failures + 1
    · have hrest : rest = [] := by
        cases rest with
        | nil => rfl
        | cons r rs =>
          rw [List.length_cons] at hle
          omega
      subst hrest
      simp only [CircuitBreaker.applyFailures]
      refine ⟨hcfg, by rw [hcf]; simp, ?_⟩
      rw [hstate, if_pos hthr, if_pos (by simp; omega)]
    · have hstate' : (cb.on_failure t).state = .CLOSED := by
        rw [hstate, if_neg hthr]
      have hle' : (cb.on_failure t).stats.consecutive_failures +
          rest.length ≤ (cb.on_failure t).config.failure_threshold := by
        rw [hcf, hcfg]
        omega
      obtain ⟨ih1, ih2, ih3⟩ := ih (cb.on_failure t) hstate' hle'
      refine ⟨by rw [ih1, hcfg], ?_, ?_⟩
      · rw [ih2, hcf, List.length_cons]
        omega
      · rw [ih3, hcf, hcfg]
        by_cases h0 : 0 < rest.length ∧
            cb.stats.consecutive_failures + 1 + rest.length =
              cb.config.failure_threshold
        · rw [if_pos h0, if_pos (by rw [List.length_cons]; constructor <;> omega)]
        · rw [if_neg h0, if_neg ?_]
          rw [List.length_cons]
          rintro ⟨-, habs⟩
          rcases Nat.eq_zero_or_pos rest.length with hz | hpos
          · rw [hz] at habs
            omega
          · exact h0 ⟨hpos, by omega⟩

/-- C4: circuit-breaker lifecycle (src/core/circuit_breaker.py).  (1) A
CLOSED breaker with a zero consecutive-failure count is OPEN after exactly
`failure_threshold` consecutive failing calls.  (2) While OPEN and before
the recovery timeout has elapsed since the state change, `call` fails
immediately without invoking the wrapped function — but the raised class
is `CircuitBreakerOpenError` (no `CircuitOpenError` class exists in the
repository).  (3) Once the (spec-modelled) recovery timeout has elapsed,
`_should_allow_request` moves the breaker to HALF_OPEN and allows the
call, and a success then closes the circuit with the consecutive-failure
counter reset to 0. -/
theorem c4_breaker_lifecycle :
    (∀ (cb : CircuitBreaker) (ts : List ℚ),
      cb.state = .CLOSED →
      cb.stats.consecutive_failures = 0 →
      ts.length = cb.config.failure_threshold →
      0 < cb.config.failure_threshold →
      (cb.applyFailures ts).state = .OPEN) ∧
    (∀ (cb : CircuitBreaker) (now : ℚ) (b : Bool),
      cb.state = .OPEN →
      now - cb.state_change_time < cb.config.recovery_timeout →
      cb.call now b = ⟨.error (.circuitBreakerOpen cb.name), false, cb⟩ ∧
      PyExc.className (.circuitBreakerOpen cb.name) =
        "CircuitBreakerOpenError") ∧
    (∀ (cb : CircuitBreaker) (now : ℚ),
      cb.state = .OPEN →
      cb.config.recovery_timeout ≤ now - cb.state_change_time →
      cb.should_allow_request now = (true, { cb with state := .HALF_OPEN }) ∧
      (cb.call now true).result = .ok () ∧
      (cb.call now true).invoked = true ∧
      (cb.call now true).breaker.state = .CLOSED ∧
      (cb.call now true).breaker.stats.consecutive_failures = 0) := by
  refine ⟨?_, ?_, ?_⟩
  · intro cb ts hst hcf0 hlen hpos
    obtain ⟨-, -, h3⟩ :=
      applyFailures_spec ts cb hst (by rw [hcf0, hlen]; omega)
    rw [h3, if_pos ⟨by omega, by omega⟩]
  · intro cb now b hst hlt
    refine ⟨?_, rfl⟩
    unfold CircuitBreaker.call CircuitBreaker.should_allow_request
    rw [hst]
    rw [if_neg (show ¬ cb.should_transition_to_half_open now from
      not_le.mpr hlt)]
  · intro cb now hst hel
    have hsar : cb.should_allow_request now =
        (true, { cb with state := .HALF_OPEN }) := by
      unfold CircuitBreaker.should_allow_request
      rw [hst]
      rw [if_pos (show cb.should_transition_to_half_open now from hel)]
    have hcall : cb.call now true =
        ⟨.ok (), true,
          ({ cb with state := .HALF_OPEN } : CircuitBreaker).on_success⟩ := by
      unfold CircuitBreaker.call
      rw [hsar]
      rfl
    exact ⟨hsar, by rw [hcall], by rw [hcall], by rw [hcall]; rfl,
      by rw [hcall]; rfl⟩

/-- C4 counterexample: the class raised by a fast-failing `call` on an
OPEN breaker is `CircuitBreakerOpenError` (circuit_breaker.py line 146),
not the `CircuitOpenError` named by the spec — no class of that name
exists anywhere in the repository. -/
theorem c4_counterexample :
    (({ name := "db", state := .OPEN } : CircuitBreaker).call 1 false).result
      = .error (.circuitBreakerOpen "db") ∧
    PyExc.className (.circuitBreakerOpen "db") = "CircuitBreakerOpenError" ∧
    PyExc.className (.circuitBreakerOpen "db") ≠ "CircuitOpenError" := by
  refine ⟨?_, by decide, by decide⟩
  unfold CircuitBreaker.call CircuitBreaker.should_allow_request
  rw [if_neg (show ¬ ({ name := "db", state := .OPEN } :
      CircuitBreaker).should_transition_to_half_open 1 by
    unfold CircuitBreaker.should_transition_to_half_open
    norm_num)]

theorem c4_breaker_lifecycle_witness :
    ((({} : CircuitBreaker).applyFailures [1, 2, 3, 4, 5]).state = .OPEN) ∧
    (({ state := .OPEN } : CircuitBreaker).call 1 false =
      ⟨.error (.circuitBreakerOpen ""), false, { state := .OPEN }⟩) ∧
    ((({ state := .OPEN } : CircuitBreaker).call 60 true).breaker.state
      = .CLOSED) :=
  ⟨c4_breaker_lifecycle.1 {} [1, 2, 3, 4, 5] rfl rfl rfl (by decide),
   (c4_breaker_lifecycle.2.1 { state := .OPEN } 1 false rfl
     (by norm_num)).1,
   (c4_breaker_lifecycle.2.2 { state := .OPEN } 60 rfl
     (by norm_num)).2.2.2.1⟩

/-- C7: for every resource and every (current state, requested state) pair
absent from `VALID_TRANSITIONS`, `ResourceStateMachine.transition` fails —
but with a `ValueError` (shutdown.py line 236; no `InvalidTransitionError`
class exists in the repository) — and the stored states are untouched (the
raise precedes the `_states` assignment, so an erroring call yields no
updated machine); no transition out of the terminal CLEANED state ever
succeeds, its transition set being empty; and conversely a call that
returns a machine was a pair present in the table, the sole change being
that resource's binding. -/
theorem c7_invalid_transition :
    (∀ (m : ResourceStateMachine) (r : String) (s : ResourceState),
      m.validate_transition r s = false →
      m.transition r s = .error (.valueErrorInvalidTransition r
        (m.currentOf r).pyName s.pyName) ∧
      PyExc.className (.valueErrorInvalidTransition r
        (m.currentOf r).pyName s.pyName) = "ValueError") ∧
    (∀ (m : ResourceStateMachine) (r : String) (s : ResourceState),
      m.currentOf r = .CLEANED →
      m.transition r s =
        .error (.valueErrorInvalidTransition r "CLEANED" s.pyName)) ∧
    (∀ (m : ResourceStateMachine) (r : String) (s : ResourceState)
        (m' : ResourceStateMachine),
      m.transition r s = .ok m' →
      m.validate_transition r s = true ∧
      m' = { m with states := setKey m.states r s }) := by
  refine ⟨?_, ?_, ?_⟩
  · intro m r s hval
    refine ⟨?_, rfl⟩
    unfold ResourceStateMachine.transition
    rw [if_neg (by simp [hval])]
  · intro m r s hcur
    have hval : m.validate_transition r s = false := by
      unfold ResourceStateMachine.validate_transition
      rw [hcur]
      rfl
    unfold ResourceStateMachine.transition
    rw [if_neg (by simp [hval]), hcur]
    rfl
  · intro m r s m' hok
    by_cases hval : m.validate_transition r s = true
    · refine ⟨hval, ?_⟩
      unfold ResourceStateMachine.transition at hok
      rw [if_pos hval] at hok
      exact (Except.ok.injEq _ _ ▸ hok).symm
    · rw [Bool.not_eq_true] at hval
      unfold ResourceStateMachine.transition at hok
      rw [if_neg (by simp [hval])] at hok
      exact Except.noConfusion hok

/-- C7 counterexample: the exception class raised for a transition pair
absent from the table is `ValueError`, not the `InvalidTransitionError`
named by the spec — no class of that name exists anywhere in the
repository.  Concretely, asking an unreached resource (current state
AVAILABLE) to jump straight to CLEANED. -/
theorem c7_counterexample :
    (⟨[]⟩ : ResourceStateMachine).transition "db" .CLEANED
      = .error (.valueErrorInvalidTransition "db" "AVAILABLE" "CLEANED") ∧
    PyExc.className (.valueErrorInvalidTransition "db" "AVAILABLE" "CLEANED")
      = "ValueError" ∧
    PyExc.className (.valueErrorInvalidTransition "db" "AVAILABLE" "CLEANED")
      ≠ "InvalidTransitionError" :=
  ⟨by decide, by decide, by decide⟩

theorem c7_invalid_transition_witness :
    (⟨[("db", .CLEANED)]⟩ : ResourceStateMachine).transition "db" .CLEANING
      = .error (.valueErrorInvalidTransition "db" "CLEANED" "CLEANING") :=
  c7_invalid_transition.2.1 ⟨[("db", .CLEANED)]⟩ "db" .CLEANING (by decide)

/-- C6: `EnhancedResourceLock.acquire` never blocks, never times out and
never returns `False`: every call — in particular one made while the lock
is held by a different holder — returns `True` and overwrites
`acquired_by` with the new holder, merely incrementing the contention
counter, because the `asyncio.timeout` block contains no await point.
The spec's contract (block up to `maxWait`, return `False` on contention
timeout leaving the holder unchanged) is unimplementable by this body: the
held case is observable only through `contention_count`. -/
theorem c6_acquire_steals_lock :
    (∀ (l : EnhancedResourceLock) (holder : String) (now : ℚ),
      (l.acquire holder now).1 = true ∧
      (l.acquire holder now).2.acquired_by = some holder) ∧
    (∀ (l : EnhancedResourceLock) (holder other : String) (now : ℚ),
      l.acquired_by = some other → other ≠ "" →
      (l.acquire holder now).1 = true ∧
      (l.acquire holder now).2.acquired_by = some holder ∧
      (l.acquire holder now).2.contention_count =
        l.contention_count + 1) := by
  refine ⟨fun l holder now => ⟨rfl, rfl⟩, ?_⟩
  intro l holder other now hheld hne
  have ht : pyTruthyStr l.acquired_by = true := by
    rw [hheld]
    simp [pyTruthyStr, hne]
  refine ⟨rfl, rfl, ?_⟩
  unfold EnhancedResourceLock.acquire
  simp [ht]

theorem c6_acquire_steals_lock_witness :
    (({ resource := "db", acquired_by := some "alice" } :
        EnhancedResourceLock).acquire "bob" 1).1 = true ∧
    (({ resource := "db", acquired_by := some "alice" } :
        EnhancedResourceLock).acquire "bob" 1).2.acquired_by = some "bob" ∧
    (({ resource := "db", acquired_by := some "alice" } :
        EnhancedResourceLock).acquire "bob" 1).2.contention_count = 0 + 1 :=
  c6_acquire_steals_lock.2 { resource := "db", acquired_by := some "alice" }
    "bob" "alice" 1 rfl (by decide)

theorem run_phase_shapes (po : ShutdownPhase → PhaseOutcome)
    (p : ShutdownPhase) (ctx : ShutdownContext) :
    ∀ e ∈ (run_phase po p ctx).2,
      e = .phaseStarted p ∨ e = .phaseTimeoutMetric p := by
  intro e he
  cases hp : po p <;> unfold run_phase at he <;> rw [hp] at he <;>
    simp at he <;> tauto

theorem run_phase_filter (po : ShutdownPhase → PhaseOutcome)
    (p : ShutdownPhase) (ctx : ShutdownContext) :
    (run_phase po p ctx).2.filter isPhaseStarted = [.phaseStarted p] := by
  cases hp : po p <;> unfold run_phase <;> rw [hp] <;>
    simp [isPhaseStarted]

theorem run_phase_ctx (po : ShutdownPhase → PhaseOutcome)
    (p : ShutdownPhase) (ctx : ShutdownContext) :
    (run_phase po p ctx).1.completed_phases = ctx.completed_phases ++
      (if po p = PhaseOutcome.completed then [p] else []) ∧
    (run_phase po p ctx).1.phase = ctx.phase := by
  cases hp : po p <;> unfold run_phase <;> rw [hp] <;> simp

theorem run_phase_timeout (po : ShutdownPhase → PhaseOutcome)
    (p : ShutdownPhase) (ctx : ShutdownContext) (h : po p = .timedOut) :
    Event.phaseTimeoutMetric p ∈ (run_phase po p ctx).2 := by
  unfold run_phase
  rw [h]
  simp

theorem chunksF_join {α : Type} :
    ∀ (f n : Nat) (xs : List α), xs.length ≤ f →
      (chunksF f n xs).join = xs := by
  intro f
  induction f with
  | zero =>
    intro n xs h
    rw [List.eq_nil_of_length_eq_zero (Nat.le_zero.mp h)]
    rfl
  | succ f ih =>
    intro n xs h
    cases xs with
    | nil => rfl
    | cons x t =>
      rw [List.length_cons] at h
      have hlen : (t.drop (n - 1)).length ≤ f := by
        rw [List.length_drop]
        omega
      show (x :: t.take (n - 1)) ++ (chunksF f n (t.drop (n - 1))).join
        = x :: t
      rw [ih n _ hlen, List.cons_append, List.take_append_drop]

theorem chunksF_mem {α : Type} :
    ∀ (f n : Nat) (xs : List α) (c : List α), 0 < n →
      c ∈ chunksF f n xs → c ≠ [] ∧ c.length ≤ n := by
  intro f
  induction f with
  | zero =>
    intro n xs c _ hc
    simp [chunksF] at hc
  | succ f ih =>
    intro n xs c hn hc
    cases xs with
    | nil => simp [chunksF] at hc
    | cons x t =>
      rw [show chunksF (f + 1) n (x :: t)
          = (x :: t.take (n - 1)) :: chunksF f n (t.drop (n - 1)) from rfl]
        at hc
      rcases List.mem_cons.mp hc with heq | hc'
      · subst heq
        refine ⟨by simp, ?_⟩
        rw [List.length_cons, List.length_take]
        have := Nat.min_le_left (n - 1) t.length
        omega
      · exact ih n _ c hn hc'

theorem chunks_join {α : Type} (n : Nat) (xs : List α) :
    (chunks n xs).join = xs :=
  chunksF_join xs.length n xs (Nat.le_refl _)

theorem chunks_mem {α : Type} {n : Nat} {xs c : List α} (hn : 0 < n)
    (hc : c ∈ chunks n xs) : c ≠ [] ∧ c.length ≤ n :=
  chunksF_mem xs.length n xs c hn hc

theorem snd_mem_of_mem_enumFrom {α : Type} :
    ∀ (l : List α) (k : Nat) (ib : Nat × α),
      ib ∈ l.enumFrom k → ib.2 ∈ l := by
  intro l
  induction l with
  | nil =>
    intro k ib h
    exact absurd h (List.not_mem_nil _)
  | cons y t ih =>
    intro k ib h
    rcases List.mem_cons.mp h with heq | h'
    · subst heq
      exact List.mem_cons_self _ _
    · exact List.mem_cons_of_mem _ (ih (k + 1) ib h')

theorem snd_mem_of_mem_enum {α : Type} {l : List α} {ib : Nat × α}
    (h : ib ∈ l.enum) : ib.2 ∈ l :=
  snd_mem_of_mem_enumFrom l 0 ib h

theorem tierEvents_shapes (bo : TaskPriority → Nat → BatchOutcome)
    (bs : Nat) (tasks : List TrackedTask) (pr : TaskPriority) :
    ∀ e ∈ tierEvents bo bs tasks pr,
      (∃ b ∈ tierBatches bs tasks pr,
        e = .batchAttempted pr (b.map TrackedTask.name) (taskTimeout pr)) ∨
      e = .batchErrorMetric pr := by
  intro e he
  rcases List.mem_flatMap.mp he with ⟨ib, hib, hin⟩
  rcases List.mem_cons.mp hin with heq | hin'
  · exact Or.inl ⟨ib.2, snd_mem_of_mem_enum hib, heq⟩
  · right
    cases hbo : bo pr ib.1 <;> rw [hbo] at hin'
    · exact absurd hin' (List.not_mem_nil _)
    · rcases List.mem_cons.mp hin' with heq | h0
      · exact heq
      · exact absurd h0 (List.not_mem_nil _)

theorem bindAttempt_filter (pr : TaskPriority)
    (bo : TaskPriority → Nat → BatchOutcome) :
    ∀ l : List (Nat × List TrackedTask),
      (l.flatMap (fun ib =>
        Event.batchAttempted pr (ib.2.map TrackedTask.name) (taskTimeout pr)
          :: match bo pr ib.1 with
             | .completed => []
             | .error => [.batchErrorMetric pr])).filter isBatchAttempt
      = l.map (fun ib =>
          Event.batchAttempted pr (ib.2.map TrackedTask.name)
            (taskTimeout pr)) := by
  intro l
  induction l with
  | nil => rfl
  | cons ib rest ih =>
    rw [List.flatMap_cons, List.filter_append, ih, List.map_cons]
    congr 1
    cases hbo : bo pr ib.1 <;> simp [isBatchAttempt]

theorem tierEvents_filter (bo : TaskPriority → Nat → BatchOutcome)
    (bs : Nat) (tasks : List TrackedTask) (pr : TaskPriority) :
    (tierEvents bo bs tasks pr).filter isBatchAttempt
      = (tierBatches bs tasks pr).enum.map (fun ib =>
          Event.batchAttempted pr (ib.2.map TrackedTask.name)
            (taskTimeout pr)) :=
  bindAttempt_filter pr bo (tierBatches bs tasks pr).enum

theorem cancel_filter_const (bo bo' : TaskPriority → Nat → BatchOutcome)
    (bs : Nat) (tasks : List TrackedTask) :
    (cancel_tasks_by_priority bo bs tasks).filter isBatchAttempt
      = (cancel_tasks_by_priority bo' bs tasks).filter isBatchAttempt := by
  unfold cancel_tasks_by_priority taskPriorities
  simp only [List.flatMap_cons, List.flatMap_nil, List.append_nil,
    List.filter_append, tierEvents_filter]

theorem not_invoke_tierEvents (bo : TaskPriority → Nat → BatchOutcome)
    (bs : Nat) (tasks : List TrackedTask) (pr : TaskPriority) (n : String) :
    Event.cleanupHandlerInvoked n ∉ tierEvents bo bs tasks pr := by
  intro h
  rcases tierEvents_shapes bo bs tasks pr _ h with ⟨b, -, heq⟩ | heq <;>
    exact Event.noConfusion heq

theorem not_invoke_cancel (bo : TaskPriority → Nat → BatchOutcome)
    (bs : Nat) (tasks : List TrackedTask) (n : String) :
    Event.cleanupHandlerInvoked n ∉ cancel_tasks_by_priority bo bs tasks := by
  intro h
  rcases List.mem_flatMap.mp h with ⟨pr, -, hin⟩
  exact not_invoke_tierEvents bo bs tasks pr n hin

theorem not_started_tierEvents (bo : TaskPriority → Nat → BatchOutcome)
    (bs : Nat) (tasks : List TrackedTask) (pr : TaskPriority)
    (p : ShutdownPhase) :
    Event.phaseStarted p ∉ tierEvents bo bs tasks pr := by
  intro h
  rcases tierEvents_shapes bo bs tasks pr _ h with ⟨b, -, heq⟩ | heq <;>
    exact Event.noConfusion heq

theorem cancel_filter_started (bo : TaskPriority → Nat → BatchOutcome)
    (bs : Nat) (tasks : List TrackedTask) :
    (cancel_tasks_by_priority bo bs tasks).filter isPhaseStarted = [] := by
  rw [List.filter_eq_nil]
  intro e he
  rcases List.mem_flatMap.mp he with ⟨pr, -, hin⟩
  rcases tierEvents_shapes bo bs tasks pr _ hin with ⟨b, -, heq⟩ | heq <;>
    subst heq <;> simp [isBatchAttempt, isPhaseStarted]

theorem run_cleanup_ok_nil {tg : TaskGraph} {l : List Event}
    (h : run_cleanup_handlers tg = .ok l) : l = [] := by
  unfold run_cleanup_handlers at h
  cases hres : tg.get_cleanup_order with
  | error e =>
    rw [hres] at h
    cases e <;> exact Except.noConfusion h
  | ok o =>
    rw [hres] at h
    cases o with
    | nil =>
      injection h with h2
      exact h2.symm
    | cons r rs => exact Except.noConfusion h

theorem getLast?_getD_cons {α : Type} :
    ∀ (l : List α) (p d : α), (p :: l).getLast?.getD d = l.getLast?.getD p := by
  intro l
  induction l with
  | nil => intro p d; rfl
  | cons r rs ih =>
    intro p d
    rw [List.getLast?_cons_cons, ih r d, ih r p]

theorem phaseLoop_no_invoke (po : ShutdownPhase → PhaseOutcome)
    (bo : TaskPriority → Nat → BatchOutcome) (g : GracefulShutdown) :
    ∀ (ps : List ShutdownPhase) (ctx : ShutdownContext) (n : String),
      Event.cleanupHandlerInvoked n ∉ (phaseLoop po bo g ps ctx).2.1 := by
  intro ps
  induction ps with
  | nil =>
    intro ctx n h
    exact absurd h (List.not_mem_nil _)
  | cons p rest ih =>
    intro ctx n h
    simp only [phaseLoop] at h
    by_cases h1 : p = ShutdownPhase.CANCEL_TASKS
    · rw [if_pos h1] at h
      simp only [List.mem_append] at h
      rcases h with (h | h) | h
      · rcases run_phase_shapes po p _ _ h with heq | heq <;>
          exact Event.noConfusion heq
      · exact not_invoke_cancel bo g.batch_size g.tasks n h
      · exact ih _ n h
    · rw [if_neg h1] at h
      by_cases h2 : p = ShutdownPhase.CLEANUP_RESOURCES
      · rw [if_pos h2] at h
        cases hrc : run_cleanup_handlers g.task_graph with
        | error e =>
          rw [hrc] at h
          simp only [List.mem_append] at h
          rcases h with h | h
          · rcases run_phase_shapes po p _ _ h with heq | heq <;>
              exact Event.noConfusion heq
          · rcases List.mem_singleton.mp h with heq
            exact Event.noConfusion heq
        | ok evs₂ =>
          rw [hrc] at h
          rw [run_cleanup_ok_nil hrc] at h
          simp only [List.mem_append] at h
          rcases h with (h | h) | h
          · rcases run_phase_shapes po p _ _ h with heq | heq <;>
              exact Event.noConfusion heq
          · exact absurd h (List.not_mem_nil _)
          · exact ih _ n h
      · rw [if_neg h2] at h
        simp only [List.mem_append] at h
        rcases h with h | h
        · rcases run_phase_shapes po p _ _ h with heq | heq <;>
            exact Event.noConfusion heq
        · exact ih _ n h

theorem phaseLoop_ok (po : ShutdownPhase → PhaseOutcome)
    (bo : TaskPriority → Nat → BatchOutcome) (g : GracefulShutdown)
    (hg : run_cleanup_handlers g.task_graph = .ok []) :
    ∀ (ps : List ShutdownPhase) (ctx : ShutdownContext),
      (phaseLoop po bo g ps ctx).2.2 = false ∧
      ((phaseLoop po bo g ps ctx).2.1.filter isPhaseStarted
        = ps.map Event.phaseStarted) ∧
      (∀ p, p ∈ ps → po p = .timedOut →
        Event.phaseTimeoutMetric p ∈ (phaseLoop po bo g ps ctx).2.1) ∧
      ((phaseLoop po bo g ps ctx).1.completed_phases
        = ctx.completed_phases
          ++ ps.filter (fun q => po q == PhaseOutcome.completed)) ∧
      ((phaseLoop po bo g ps ctx).1.phase = ps.getLast?.getD ctx.phase) := by
  intro ps
  induction ps with
  | nil =>
    intro ctx
    exact ⟨rfl, rfl,
      fun p hp => absurd hp (List.not_mem_nil _), by simp [phaseLoop], rfl⟩
  | cons p rest ih =>
    intro ctx
    obtain ⟨hcp, hph⟩ := run_phase_ctx po p { ctx with phase := p }
    obtain ⟨f1, f2, f3, f4, f5⟩ :=
      ih (run_phase po p { ctx with phase := p }).1
    have hp2 : (run_phase po p { ctx with phase := p }).1.phase = p := by
      rw [hph]
    by_cases h1 : p = ShutdownPhase.CANCEL_TASKS
    · simp only [phaseLoop, if_pos h1]
      refine ⟨f1, ?_, ?_, ?_, ?_⟩
      · rw [List.filter_append, List.filter_append, run_phase_filter,
          cancel_filter_started, f2, List.map_cons]
        simp
      · intro q hq hto
        rcases List.mem_cons.mp hq with rfl | hmem
        · exact List.mem_append_left _
            (List.mem_append_left _ (run_phase_timeout po q _ hto))
        · exact List.mem_append_right _ (f3 q hmem hto)
      · rw [f4, hcp, List.filter_cons]
        by_cases hpo : po p = PhaseOutcome.completed <;>
          simp [hpo, List.append_assoc]
      · rw [f5, hp2, getLast?_getD_cons]
    · by_cases h2 : p = ShutdownPhase.CLEANUP_RESOURCES
      · simp only [phaseLoop, if_neg h1, if_pos h2, hg]
        refine ⟨f1, ?_, ?_, ?_, ?_⟩
        · rw [List.filter_append, List.filter_append, run_phase_filter,
            f2, List.map_cons]
          simp [isPhaseStarted]
        · intro q hq hto
          rcases List.mem_cons.mp hq with rfl | hmem
          · exact List.mem_append_left _
              (List.mem_append_left _ (run_phase_timeout po q _ hto))
          · exact List.mem_append_right _ (f3 q hmem hto)
        · rw [f4, hcp, List.filter_cons]
          by_cases hpo : po p = PhaseOutcome.completed <;>
            simp [hpo, List.append_assoc]
        · rw [f5, hp2, getLast?_getD_cons]
      · simp only [phaseLoop, if_neg h1, if_neg h2]
        refine ⟨f1, ?_, ?_, ?_, ?_⟩
        · rw [List.filter_append, run_phase_filter, f2, List.map_cons]
          simp
        · intro q hq hto
          rcases List.mem_cons.mp hq with rfl | hmem
          · exact List.mem_append_left _ (run_phase_timeout po q _ hto)
          · exact List.mem_append_right _ (f3 q hmem hto)
        · rw [f4, hcp, List.filter_cons]
          by_cases hpo : po p = PhaseOutcome.completed <;>
            simp [hpo, List.append_assoc]
        · rw [f5, hp2, getLast?_getD_cons]

theorem phaseLoop_err (po : ShutdownPhase → PhaseOutcome)
    (bo : TaskPriority → Nat → BatchOutcome) (g : GracefulShutdown)
    (e : PyExc) (he : run_cleanup_handlers g.task_graph = .error e) :
    ∀ (ps : List ShutdownPhase) (ctx : ShutdownContext),
      (phaseLoop po bo g ps ctx).2.1.filter isPhaseStarted
        = (upToCleanup ps).map Event.phaseStarted := by
  intro ps
  induction ps with
  | nil => intro ctx; rfl
  | cons p rest ih =>
    intro ctx
    by_cases h2 : p = ShutdownPhase.CLEANUP_RESOURCES
    · have h1 : ¬ p = ShutdownPhase.CANCEL_TASKS := by
        rw [h2]
        intro hc
        exact ShutdownPhase.noConfusion hc
      simp only [phaseLoop, if_neg h1, if_pos h2, he, upToCleanup]
      rw [List.filter_append, run_phase_filter]
      simp [isPhaseStarted]
    · by_cases h1 : p = ShutdownPhase.CANCEL_TASKS
      · simp only [phaseLoop, if_pos h1, upToCleanup, if_neg h2]
        rw [List.filter_append, List.filter_append,
          run_phase_filter, cancel_filter_started, ih, List.map_cons]
        simp
      · simp only [phaseLoop, if_neg h1, if_neg h2, upToCleanup]
        rw [List.filter_append, run_phase_filter, ih, List.map_cons]
        simp

theorem shutdown_run {g : GracefulShutdown}
    (po : ShutdownPhase → PhaseOutcome)
    (bo : TaskPriority → Nat → BatchOutcome)
    (hip : g.shutdown_in_progress = false) :
    g.shutdown po bo =
      ⟨{ g with shutdown_in_progress := true },
       some (phaseLoop po bo g shutdownPhases ⟨.INITIALIZE, [], []⟩).1,
       (phaseLoop po bo g shutdownPhases ⟨.INITIALIZE, [], []⟩).2.1,
       true⟩ := by
  unfold GracefulShutdown.shutdown
  rw [if_neg (by simp [hip])]

/-- C2: for every `shutdown(reason)` invocation that actually begins (the
`_shutdown_in_progress` guard passes) with the `_task_graph` in its
only reachable state (constructed empty at line 628 and never populated),
and for every behaviour of the registered phase handlers: the six phases
are attempted in the order INITIALIZE, STOP_ACCEPTING, DRAIN_REQUESTS,
CANCEL_TASKS, CLEANUP_RESOURCES, FINALIZE; a phase whose handlers miss
the phase deadline has the timeout recorded in the `phase_timeout` error
metric while every later phase still runs (the conclusion holds for every
outcome oracle); the run always reaches FINALIZE — the final context's
phase is FINALIZE, a phase is marked completed exactly when its handlers
finished in time — and `_finalize_shutdown` always runs. -/
theorem c2_phases_progress_to_finalize :
    ∀ (g : GracefulShutdown) (po : ShutdownPhase → PhaseOutcome)
      (bo : TaskPriority → Nat → BatchOutcome),
      g.shutdown_in_progress = false →
      g.task_graph = ⟨[], [], []⟩ →
      ((g.shutdown po bo).events.filter isPhaseStarted
        = shutdownPhases.map Event.phaseStarted) ∧
      (∀ p, p ∈ shutdownPhases → po p = .timedOut →
        Event.phaseTimeoutMetric p ∈ (g.shutdown po bo).events) ∧
      (∃ ctx, (g.shutdown po bo).context = some ctx ∧
        ctx.phase = .FINALIZE ∧
        ctx.completed_phases
          = shutdownPhases.filter (fun q => po q == PhaseOutcome.completed)) ∧
      (g.shutdown po bo).finalized = true := by
  intro g po bo hip hemp
  have hg : run_cleanup_handlers g.task_graph = .ok [] := by
    rw [hemp]
    rfl
  obtain ⟨f1, f2, f3, f4, f5⟩ :=
    phaseLoop_ok po bo g hg shutdownPhases ⟨.INITIALIZE, [], []⟩
  rw [shutdown_run po bo hip]
  refine ⟨f2, fun p hp hto => f3 p hp hto, ⟨_, rfl, ?_, ?_⟩, rfl⟩
  · rw [f5]
    rfl
  · rw [f4]
    simp

theorem c2_phases_progress_to_finalize_witness :
    ((({} : GracefulShutdown).shutdown (fun _ => PhaseOutcome.timedOut)
        (fun _ _ => BatchOutcome.completed)).events.filter isPhaseStarted
      = shutdownPhases.map Event.phaseStarted) ∧
    Event.phaseTimeoutMetric .CLEANUP_RESOURCES ∈
      (({} : GracefulShutdown).shutdown (fun _ => PhaseOutcome.timedOut)
        (fun _ _ => BatchOutcome.completed)).events ∧
    (({} : GracefulShutdown).shutdown (fun _ => PhaseOutcome.timedOut)
        (fun _ _ => BatchOutcome.completed)).finalized = true :=
  ⟨(c2_phases_progress_to_finalize {} (fun _ => PhaseOutcome.timedOut)
      (fun _ _ => BatchOutcome.completed) rfl rfl).1,
   (c2_phases_progress_to_finalize {} (fun _ => PhaseOutcome.timedOut)
      (fun _ _ => BatchOutcome.completed) rfl rfl).2.1
     .CLEANUP_RESOURCES (by decide) rfl,
   (c2_phases_progress_to_finalize {} (fun _ => PhaseOutcome.timedOut)
      (fun _ _ => BatchOutcome.completed) rfl rfl).2.2.2⟩

/-- C5: `shutdown` is an immediate no-op when already in progress — the
`_shutdown_in_progress` guard (shutdown.py lines 812-814) returns `None`
at once: no phase runs, no events fire, `_finalize_shutdown` does not run,
and the caller receives no report and does not wait for the in-flight run
to complete.  A first call sets the flag (which nothing ever resets), so
of two sequential calls exactly one executes the phase sequence; the
executing call is the only one that produces a context/report. -/
theorem c5_second_call_noop :
    (∀ (g : GracefulShutdown) (po : ShutdownPhase → PhaseOutcome)
      (bo : TaskPriority → Nat → BatchOutcome),
      g.shutdown_in_progress = true →
      g.shutdown po bo = ⟨g, none, [], false⟩) ∧
    (∀ (g : GracefulShutdown) (po : ShutdownPhase → PhaseOutcome)
      (bo : TaskPriority → Nat → BatchOutcome)
      (po' : ShutdownPhase → PhaseOutcome)
      (bo' : TaskPriority → Nat → BatchOutcome),
      g.shutdown_in_progress = false →
      (g.shutdown po bo).gs.shutdown_in_progress = true ∧
      (∃ ctx, (g.shutdown po bo).context = some ctx) ∧
      (g.shutdown po bo).gs.shutdown po' bo' =
        ⟨(g.shutdown po bo).gs, none, [], false⟩) := by
  constructor
  · intro g po bo hip
    unfold GracefulShutdown.shutdown
    rw [if_pos hip]
  · intro g po bo po' bo' hip
    rw [shutdown_run po bo hip]
    exact ⟨rfl, ⟨_, rfl⟩, rfl⟩

/-- C5 counterexample: with every handler succeeding, the first call's
report (`self._context`) exists, but a second sequential call returns with
no report at all — it does not receive the in-flight result, refuting
"the second caller receives the same report once the first completes". -/
theorem c5_counterexample :
    ((({} : GracefulShutdown).shutdown (fun _ => PhaseOutcome.completed)
        (fun _ _ => BatchOutcome.completed)).gs.shutdown
        (fun _ => PhaseOutcome.completed)
        (fun _ _ => BatchOutcome.completed)).context = none ∧
    (({} : GracefulShutdown).shutdown (fun _ => PhaseOutcome.completed)
        (fun _ _ => BatchOutcome.completed)).context ≠ none :=
  ⟨by decide, by decide⟩

theorem c5_second_call_noop_witness :
    ((⟨true, 10, [], [], ⟨[], [], []⟩⟩ : GracefulShutdown).shutdown
        (fun _ => PhaseOutcome.completed) (fun _ _ => BatchOutcome.completed)
      = ⟨⟨true, 10, [], [], ⟨[], [], []⟩⟩, none, [], false⟩) ∧
    ((({} : GracefulShutdown).shutdown (fun _ => PhaseOutcome.completed)
        (fun _ _ => BatchOutcome.completed)).gs.shutdown
        (fun _ => PhaseOutcome.failed) (fun _ _ => BatchOutcome.error)
      = ⟨(({} : GracefulShutdown).shutdown (fun _ => PhaseOutcome.completed)
          (fun _ _ => BatchOutcome.completed)).gs, none, [], false⟩) :=
  ⟨c5_second_call_noop.1 ⟨true, 10, [], [], ⟨[], [], []⟩⟩
      (fun _ => PhaseOutcome.completed) (fun _ _ => BatchOutcome.completed)
      rfl,
   (c5_second_call_noop.2 {} (fun _ => PhaseOutcome.completed)
      (fun _ _ => BatchOutcome.completed) (fun _ => PhaseOutcome.failed)
      (fun _ _ => BatchOutcome.error) rfl).2.2⟩

/-- C8: `_cancel_tasks_by_priority` processes the tiers in the order
CRITICAL, HIGH, MEDIUM, LOW (the trace is the concatenation of the four
tier traces); within a tier, tasks are cancelled in batches of at most
`_batch_size` (default 10 via `ShutdownConfig.batch_size`), each batch
attempted under the tier's configured timeout (`_task_timeouts`); the
batches of a tier partition exactly the tier's tasks; the attempted
batches are identical whatever the batch outcomes — an erroring batch
(the per-batch timeout included) aborts neither the remaining batches nor
later tiers — and an erroring batch fires the `batch_processing` error
metric (`_handle_batch_error`). -/
theorem c8_tiered_batched_cancellation :
    ∀ (bo : TaskPriority → Nat → BatchOutcome) (bs : Nat)
      (tasks : List TrackedTask),
      0 < bs →
      (cancel_tasks_by_priority bo bs tasks
        = tierEvents bo bs tasks .CRITICAL ++ tierEvents bo bs tasks .HIGH
          ++ tierEvents bo bs tasks .MEDIUM
          ++ tierEvents bo bs tasks .LOW) ∧
      (∀ pr names tmo, Event.batchAttempted pr names tmo
          ∈ cancel_tasks_by_priority bo bs tasks →
        names ≠ [] ∧ names.length ≤ bs ∧ tmo = taskTimeout pr) ∧
      (∀ pr, (tierBatches bs tasks pr).join
        = tasks.filter (fun t => t.priority == pr)) ∧
      (∀ bo', (cancel_tasks_by_priority bo bs tasks).filter isBatchAttempt
        = (cancel_tasks_by_priority bo' bs tasks).filter isBatchAttempt) ∧
      (∀ pr ib, ib ∈ (tierBatches bs tasks pr).enum →
        bo pr ib.1 = .error →
        Event.batchErrorMetric pr ∈ cancel_tasks_by_priority bo bs tasks) ∧
      ({} : GracefulShutdown).batch_size = 10 := by
  intro bo bs tasks hbs
  refine ⟨?_, ?_, ?_, fun bo' => cancel_filter_const bo bo' bs tasks, ?_,
    rfl⟩
  · unfold cancel_tasks_by_priority taskPriorities
    simp [List.flatMap_cons, List.flatMap_nil, List.append_assoc]
  · intro pr names tmo hmem
    rcases List.mem_flatMap.mp hmem with ⟨pr', -, hin⟩
    rcases tierEvents_shapes bo bs tasks pr' _ hin with ⟨b, hb, heq⟩ | heq
    · injection heq with hpr hnames hto
      subst hpr
      obtain ⟨hne, hlen⟩ := chunks_mem hbs hb
      refine ⟨?_, ?_, hto⟩
      · intro hnil
        rw [hnil] at hnames
        exact hne (List.map_eq_nil.mp hnames.symm)
      · rw [hnames, List.length_map]
        exact hlen
    · exact absurd heq (fun h => Event.noConfusion h)
  · intro pr
    unfold tierBatches
    rw [chunks_join]
    rfl
  · intro pr ib hib hbo
    apply List.mem_flatMap.mpr
    refine ⟨pr, by cases pr <;> simp [taskPriorities], ?_⟩
    unfold tierEvents
    apply List.mem_flatMap.mpr
    refine ⟨ib, hib, ?_⟩
    rw [hbo]
    simp

theorem c8_tiered_batched_cancellation_witness :
    (Event.batchErrorMetric .CRITICAL ∈ cancel_tasks_by_priority
      (fun _ _ => BatchOutcome.error) 10 [⟨"a", .CRITICAL⟩]) ∧
    ((tierBatches 10 [⟨"a", .CRITICAL⟩] TaskPriority.CRITICAL).join
      = [⟨"a", .CRITICAL⟩].filter
          (fun t => t.priority == TaskPriority.CRITICAL)) :=
  ⟨(c8_tiered_batched_cancellation (fun _ _ => BatchOutcome.error) 10
      [⟨"a", .CRITICAL⟩] (by decide)).2.2.2.2.1 .CRITICAL
      (0, [⟨"a", .CRITICAL⟩]) (by decide) rfl,
   (c8_tiered_batched_cancellation (fun _ _ => BatchOutcome.error) 10
      [⟨"a", .CRITICAL⟩] (by decide)).2.2.1 .CRITICAL⟩

/-- C9: no run of `shutdown` ever invokes a cleanup handler, so the
claim's premise — a cleanup handler timing out during shutdown — is
unsatisfiable: `_run_cleanup_handlers` draws its resources from
`_task_graph.get_cleanup_order()`, and `_task_graph` is constructed empty
(line 628) and never populated, so the handler table `_cleanup_handlers`
is never consulted (first conjunct, over every object state and handler
behaviour).  Moreover the conclusion fails on both hypothetical readings:
a phase whose handlers time out is never added to
`context.completed_phases`, so after a CLEANUP_RESOURCES timeout the
final report lacks that phase (second conjunct); and were `_task_graph`
populated, `_run_cleanup_handlers` would raise `AttributeError` (the
undefined `_can_cleanup_concurrently`), aborting the loop so that
FINALIZE is never even started (third conjunct). -/
theorem c9_cleanup_handlers_never_run :
    (∀ (g : GracefulShutdown) (po : ShutdownPhase → PhaseOutcome)
      (bo : TaskPriority → Nat → BatchOutcome) (n : String),
      Event.cleanupHandlerInvoked n ∉ (g.shutdown po bo).events) ∧
    (∀ (g : GracefulShutdown) (po : ShutdownPhase → PhaseOutcome)
      (bo : TaskPriority → Nat → BatchOutcome),
      g.shutdown_in_progress = false →
      g.task_graph = ⟨[], [], []⟩ →
      po .CLEANUP_RESOURCES = .timedOut →
      ∃ ctx, (g.shutdown po bo).context = some ctx ∧
        ShutdownPhase.CLEANUP_RESOURCES ∉ ctx.completed_phases) ∧
    (∀ (g : GracefulShutdown) (po : ShutdownPhase → PhaseOutcome)
      (bo : TaskPriority → Nat → BatchOutcome) (e : PyExc),
      g.shutdown_in_progress = false →
      run_cleanup_handlers g.task_graph = .error e →
      Event.phaseStarted .FINALIZE ∉ (g.shutdown po bo).events) := by
  refine ⟨?_, ?_, ?_⟩
  · intro g po bo n h
    by_cases hip : g.shutdown_in_progress = true
    · unfold GracefulShutdown.shutdown at h
      rw [if_pos hip] at h
      exact absurd h (List.not_mem_nil _)
    · rw [Bool.not_eq_true] at hip
      rw [shutdown_run po bo hip] at h
      exact phaseLoop_no_invoke po bo g shutdownPhases _ n h
  · intro g po bo hip hemp hto
    have hg : run_cleanup_handlers g.task_graph = .ok [] := by
      rw [hemp]
      rfl
    obtain ⟨f1, f2, f3, f4, f5⟩ :=
      phaseLoop_ok po bo g hg shutdownPhases ⟨.INITIALIZE, [], []⟩
    rw [shutdown_run po bo hip]
    refine ⟨_, rfl, ?_⟩
    rw [f4]
    intro hmem
    rw [List.nil_append] at hmem
    have hbeq := (List.mem_filter.mp hmem).2
    rw [hto] at hbeq
    exact absurd hbeq (by decide)
  · intro g po bo e hip herr h
    rw [shutdown_run po bo hip] at h
    have hmem : Event.phaseStarted .FINALIZE ∈
        (phaseLoop po bo g shutdownPhases
          ⟨.INITIALIZE, [], []⟩).2.1.filter isPhaseStarted :=
      List.mem_filter.mpr ⟨h, rfl⟩
    rw [phaseLoop_err po bo g e herr shutdownPhases ⟨.INITIALIZE, [], []⟩]
      at hmem
    revert hmem
    decide

theorem c9_cleanup_handlers_never_run_witness :
    (∃ ctx, (({} : GracefulShutdown).shutdown
        (fun p => if p = ShutdownPhase.CLEANUP_RESOURCES
          then PhaseOutcome.timedOut else PhaseOutcome.completed)
        (fun _ _ => BatchOutcome.completed)).context = some ctx ∧
      ShutdownPhase.CLEANUP_RESOURCES ∉ ctx.completed_phases) ∧
    (Event.phaseStarted .FINALIZE ∉
      (({ task_graph := ⟨[("r", [])], [], []⟩ } : GracefulShutdown).shutdown
        (fun _ => PhaseOutcome.completed)
        (fun _ _ => BatchOutcome.completed)).events) :=
  ⟨c9_cleanup_handlers_never_run.2.1 {}
      (fun p => if p = ShutdownPhase.CLEANUP_RESOURCES
        then PhaseOutcome.timedOut else PhaseOutcome.completed)
      (fun _ _ => BatchOutcome.completed) rfl rfl rfl,
   c9_cleanup_handlers_never_run.2.2
      { task_graph := ⟨[("r", [])], [], []⟩ }
      (fun _ => PhaseOutcome.completed) (fun _ _ => BatchOutcome.completed)
      (.attributeErrorUndefined "_can_cleanup_concurrently") rfl
      (by decide)⟩
